import Mathlib

/-!
Verification of the Ξ-LUA security core (AutoHeal / Ω-Gate / Stabilizer /
Unified Monitor) against its specification.

The Python sources are shallowly embedded: machine floats are modelled by
exact rationals, wall-clock instants are explicit rational parameters,
byte strings are lists of naturals, and the external libraries
(`hashlib.sha3_256`, `cryptography` AESGCM, the `json` module) are modelled
by parameters or by executable Lean functions that reproduce the observable
output format on the data this repository produces.
-/

namespace Captals

/-! ## JSON values

Model of the Python values that flow into `json.dumps` in
`lua_autoheal.py` (strings, ints, booleans, None, lists, dicts).
Floats are not modelled; no claim under verification depends on float
formatting.  A dict is modelled as an association list in its insertion
order; `sort_keys=True` is modelled by sorting the printed pairs by key. -/

inductive Json where
  | null : Json
  | bool : Bool → Json
  | num : Int → Json
  | str : String → Json
  | arr : List Json → Json
  | obj : List (String × Json) → Json

/-- Decimal digit character for `d < 10` (`'0'` … `'9'`). -/
def digitChar (d : Nat) : Char := Char.ofNat (48 + d)

/-- Decimal representation of a natural number, as Python `str` prints it. -/
def natRepr (n : Nat) : List Char :=
  if n = 0 then ['0'] else ((Nat.digits 10 n).reverse).map digitChar

/-- Decimal representation of an integer, as Python `str` prints it. -/
def intRepr (n : Int) : List Char :=
  if n < 0 then '-' :: natRepr n.natAbs else natRepr n.toNat

/-- JSON string escaping for one character.  Models Python's `json.dumps`
on the character set this repository emits: `"` and `\` are escaped;
control characters and non-ASCII escaping are not modelled because no
entry under verification contains them. -/
def escapeChar (c : Char) : List Char :=
  if c = '"' then ['\\', '"']
  else if c = '\\' then ['\\', '\\']
  else [c]

/-- JSON string-body escaping. -/
def escapeStr : List Char → List Char
  | [] => []
  | c :: cs => escapeChar c ++ escapeStr cs

/-- A JSON string literal: quote, escaped body, quote. -/
def dumpStr (s : String) : List Char := '"' :: escapeStr s.data ++ ['"']

/-- Strict code-point lexicographic order on character lists — the order
Python's `str <` uses when `sort_keys=True` sorts dict keys. -/
def listLtb : List Char → List Char → Bool
  | [], [] => false
  | [], _ :: _ => true
  | _ :: _, [] => false
  | c :: cs, d :: ds =>
    if c.toNat < d.toNat then true
    else if d.toNat < c.toNat then false
    else listLtb cs ds

/-- Strict key order on strings (code-point lexicographic). -/
def strLtb (a b : String) : Bool := listLtb a.data b.data

/-- Reflexive key order on strings. -/
def strLeb (a b : String) : Bool := !(strLtb b a)

/-- Insert a printed pair before the first pair whose key is not below
its own. -/
def insertPair (p : String × List Char) :
    List (String × List Char) → List (String × List Char)
  | [] => [p]
  | q :: rest => if strLeb p.1 q.1 then p :: q :: rest else q :: insertPair p rest

/-- Sorting of the printed key/value pairs by key (model of
`sort_keys=True`; keys of a Python dict are distinct, so stability is
unobservable). -/
def sortPairs : List (String × List Char) → List (String × List Char)
  | [] => []
  | p :: rest => insertPair p (sortPairs rest)

/-- Join the printed pairs of an object with Python's default separators
`': '` (key separator) and `', '` (item separator). -/
def joinObj : List (String × List Char) → List Char
  | [] => []
  | [(k, v)] => dumpStr k ++ ':' :: ' ' :: v
  | (k, v) :: p :: rest => dumpStr k ++ ':' :: ' ' :: v ++ ',' :: ' ' :: joinObj (p :: rest)

mutual
/-- Model of Python `json.dumps(v, sort_keys = sk)` with the default
separators `(', ', ': ')`, producing the output character list. -/
def dumpsJ (sk : Bool) : Json → List Char
  | .null => 'n' :: ['u', 'l', 'l']
  | .bool true => 't' :: ['r', 'u', 'e']
  | .bool false => 'f' :: ['a', 'l', 's', 'e']
  | .num n => intRepr n
  | .str s => dumpStr s
  | .arr xs => '[' :: dumpsArr sk xs ++ [']']
  | .obj kvs => '{' :: joinObj (if sk then sortPairs (dumpsPairs sk kvs) else dumpsPairs sk kvs) ++ ['}']

/-- Array elements joined with `', '`. -/
def dumpsArr (sk : Bool) : List Json → List Char
  | [] => []
  | [x] => dumpsJ sk x
  | x :: y :: rest => dumpsJ sk x ++ ',' :: ' ' :: dumpsArr sk (y :: rest)

/-- Each object pair printed (key kept, value printed), insertion order. -/
def dumpsPairs (sk : Bool) : List (String × Json) → List (String × List Char)
  | [] => []
  | (k, v) :: rest => (k, dumpsJ sk v) :: dumpsPairs sk rest
end

/-- `json.dumps` as a Lean `String`. -/
def dumps (sk : Bool) (v : Json) : String := String.mk (dumpsJ sk v)

/-- Strictly increasing key list (no duplicate keys, sorted). -/
def strictKeys : List (String × Json) → Bool
  | [] => true
  | [_] => true
  | (k, _) :: (k₂, v₂) :: rest => strLtb k k₂ && strictKeys ((k₂, v₂) :: rest)

mutual
/-- A JSON value is canonical when every object in it lists its keys in
strictly increasing order — the normal form of a Python dict, whose key
order is unobservable under `sort_keys=True`. -/
def canonicalB : Json → Bool
  | .null => true
  | .bool _ => true
  | .num _ => true
  | .str _ => true
  | .arr xs => canonicalArr xs
  | .obj kvs => strictKeys kvs && canonicalPairs kvs

def canonicalArr : List Json → Bool
  | [] => true
  | x :: xs => canonicalB x && canonicalArr xs

def canonicalPairs : List (String × Json) → Bool
  | [] => true
  | (_, v) :: rest => canonicalB v && canonicalPairs rest
end

/-! ## MerkleChainLogger (`lua_autoheal.py` lines 37–119)

The SHA3-256 digest is a parameter `hash : String → String`; tamper
detection holds under the standard idealization that the digest is
collision-free (injective).  Disk state is not part of the chain model
except in `append_run`, which exposes the write outcome for the
atomicity claim. -/

/-- One chain entry, the five keys of the dict built by `append`. -/
structure ChainEntry where
  timestamp : String
  event : String
  metadata : Json
  prev_root : String
  merkle_root : String

/-- The first four fields: everything except the stored root. -/
def ChainEntry.data (e : ChainEntry) : String × String × Json × String :=
  (e.timestamp, e.event, e.metadata, e.prev_root)

/-- In-memory state of `MerkleChainLogger`: the entry vector and
`current_root`. -/
structure MerkleChainLogger where
  chain : List ChainEntry
  current_root : String

/-- `"0" * 64`, the genesis root. -/
def genesisRoot : String := String.mk (List.replicate 64 '0')

/-- A fresh logger (empty log file case of `__init__` / `_load_chain`). -/
def MerkleChainLogger.init : MerkleChainLogger :=
  { chain := [], current_root := genesisRoot }

/-- The dict `{timestamp, event, metadata, prev_root}` that `append` and
`verify_integrity` serialize for hashing.  Python dict insertion order is
unobservable under `sort_keys=True`, so the pairs are listed in key
order. -/
def entryJson (timestamp event : String) (metadata : Json) (prev_root : String) : Json :=
  .obj [("event", .str event), ("metadata", metadata),
        ("prev_root", .str prev_root), ("timestamp", .str timestamp)]

/-- `json.dumps(entry, sort_keys=True)` of the four-field entry. -/
def ChainEntry.serialize (e : ChainEntry) : String :=
  dumps true (entryJson e.timestamp e.event e.metadata e.prev_root)

/-- `_compute_hash`: digest of `f"{data}|{prev_root}"`. -/
def compute_hash (hash : String → String) (data prev_root : String) : String :=
  hash (data ++ "|" ++ prev_root)

/-- `append(event, metadata)` at an explicit timestamp: build the entry
with `prev_root = current_root`, hash its sorted serialization with the
current root, store the root in the entry, push it, advance
`current_root`. -/
def MerkleChainLogger.append (hash : String → String) (st : MerkleChainLogger)
    (timestamp event : String) (metadata : Json) : MerkleChainLogger :=
  let entry_str := dumps true (entryJson timestamp event metadata st.current_root)
  let new_root := compute_hash hash entry_str st.current_root
  { chain := st.chain ++
      [{ timestamp := timestamp, event := event, metadata := metadata,
         prev_root := st.current_root, merkle_root := new_root }],
    current_root := new_root }

/-- `append` including the disk write (`open(...,'a')` / `f.write`), whose
outcome is the `diskOk` parameter.  The source updates `current_root` and
pushes onto `chain` *before* the write, so a failed write still returns
the mutated state together with the propagating exception. -/
def MerkleChainLogger.append_run (hash : String → String) (diskOk : Bool)
    (st : MerkleChainLogger) (timestamp event : String) (metadata : Json) :
    MerkleChainLogger × Except Unit String :=
  let st' := st.append hash timestamp event metadata
  if diskOk then (st', .ok st'.current_root) else (st', .error ())

/-- The verification walk of `verify_integrity`: thread the running root
through the chain, checking each recomputed root against the stored one;
`some r` is the final root on success, `none` is the `return False` path. -/
def verifyFrom (hash : String → String) : String → List ChainEntry → Option String
  | root, [] => some root
  | root, e :: rest =>
    let entry_str := e.serialize
    let expected_root := compute_hash hash entry_str root
    if expected_root = e.merkle_root then verifyFrom hash e.merkle_root rest else none

/-- `verify_integrity()`: recompute every root from the genesis root
(the empty chain returns `True`). -/
def MerkleChainLogger.verify_integrity (hash : String → String)
    (st : MerkleChainLogger) : Bool :=
  (verifyFrom hash genesisRoot st.chain).isSome

/-- The line `json.dumps(entry)` persisted by `append`: *no* `sort_keys`,
so the keys appear in dict insertion order
(timestamp, event, metadata, prev_root, merkle_root). -/
def ChainEntry.persistedLine (e : ChainEntry) : String :=
  dumps false (.obj [("timestamp", .str e.timestamp), ("event", .str e.event),
                     ("metadata", e.metadata), ("prev_root", .str e.prev_root),
                     ("merkle_root", .str e.merkle_root)])

/-- Canonical JSON as the spec defines it.  Modelled from the spec:
"canonical JSON must sort object keys lexicographically, use no
insignificant whitespace" — like `dumpsJ true` but with separators
`(',', ':')` instead of Python's default `(', ', ': ')`. -/
def joinObjCanon : List (String × List Char) → List Char
  | [] => []
  | [(k, v)] => dumpStr k ++ ':' :: v
  | (k, v) :: p :: rest => dumpStr k ++ ':' :: v ++ ',' :: joinObjCanon (p :: rest)

mutual
/-- Modelled from the spec: the canonical-JSON serialization (sorted keys,
no insignificant whitespace). -/
def canonDumpsJ : Json → List Char
  | .null => 'n' :: ['u', 'l', 'l']
  | .bool true => 't' :: ['r', 'u', 'e']
  | .bool false => 'f' :: ['a', 'l', 's', 'e']
  | .num n => intRepr n
  | .str s => dumpStr s
  | .arr xs => '[' :: canonDumpsArr xs ++ [']']
  | .obj kvs => '{' :: joinObjCanon (sortPairs (canonDumpsPairs kvs)) ++ ['}']

def canonDumpsArr : List Json → List Char
  | [] => []
  | [x] => canonDumpsJ x
  | x :: y :: rest => canonDumpsJ x ++ ',' :: canonDumpsArr (y :: rest)

def canonDumpsPairs : List (String × Json) → List (String × List Char)
  | [] => []
  | (k, v) :: rest => (k, canonDumpsJ v) :: canonDumpsPairs rest
end

/-- Canonical-JSON string (spec-modelled reference). -/
def canonDumps (v : Json) : String := String.mk (canonDumpsJ v)

/-! ## KillSwitch (`lua_autoheal.py` lines 298–358)

Wall-clock instants (`time.time()`) are explicit rational parameters.
`activate` ends in `raise SystemExit(...)`; every operation that can
raise returns its post-mutation state together with an
`Except Unit` result (`.error ()` is the propagating `SystemExit`). -/

structure KillSwitch where
  threshold : Nat
  window : ℚ
  events : List ℚ
  armed : Bool
  logger : MerkleChainLogger

/-- `KillSwitch(threshold=3, window=60)` with a fresh logger. -/
def KillSwitch.init : KillSwitch :=
  { threshold := 3, window := 60, events := [], armed := true,
    logger := MerkleChainLogger.init }

/-- `activate()`: a disarmed switch returns immediately; an armed one
disarms, chain-logs `"KILL-SWITCH ACTIVATED"`, and raises `SystemExit`. -/
def KillSwitch.activate (hash : String → String) (ts : String)
    (ks : KillSwitch) : KillSwitch × Except Unit Unit :=
  if ¬ ks.armed then (ks, .ok ()) else
    let ks' := { ks with
      armed := false,
      logger := ks.logger.append hash ts "KILL-SWITCH ACTIVATED"
        (.obj [("reason",
                .str (toString ks.events.length ++ " suspicious events")),
               ("threshold", .num ks.threshold)]) }
    (ks', .error ())

/-- `report_suspicious_event(event_type)`: record `now`, prune events
older than the window (`now - t < window` is kept), chain-log
`"Suspicious: ..."` with the in-window count, then activate when
`threshold` is reached.  `now` is the clock reading and `ts` the
timestamp string passed to the logger. -/
def KillSwitch.report_suspicious_event (hash : String → String) (now : ℚ)
    (ts : String) (event_type : String) (ks : KillSwitch) :
    KillSwitch × Except Unit Bool :=
  let events := (ks.events ++ [now]).filter (fun t => now - t < ks.window)
  let logger := ks.logger.append hash ts ("Suspicious: " ++ event_type)
    (.obj [("count_in_window", .num events.length), ("type", .str event_type)])
  let ks' := { ks with events := events, logger := logger }
  if ks.threshold ≤ events.length then
    let (ks'', r) := ks'.activate hash ts
    match r with
    | .error e => (ks'', .error e)
    | .ok _ => (ks'', .ok true)
  else (ks', .ok false)

/-! ## EphemeralKeyManager encrypt/decrypt (`lua_autoheal.py` lines 224–246)

Byte strings are `List ℕ`.  The AES-256-GCM primitive from the
`cryptography` library is a parameter pair `(aeadEnc, aeadDec)`
(key → nonce → message → message); its round-trip property is the
hypothesis under which the library operates.  The key epoch is fixed
(`get_key()` without expiry), matching the "same current ephemeral key
epoch" side condition of the claim. -/

abbrev Bytes := List Nat

/-- `encrypt(data)`: fresh 96-bit (12-byte) nonce, AEAD-encrypt, return
`nonce + ciphertext` (the AEAD output carries the GCM tag). -/
def ekmEncrypt (aeadEnc : Bytes → Bytes → Bytes → Bytes)
    (key nonce data : Bytes) : Bytes :=
  nonce ++ aeadEnc key nonce data

/-- `decrypt(encrypted_data)`: split off the first 12 bytes as the nonce,
decrypt the rest with the current key. -/
def ekmDecrypt (aeadDec : Bytes → Bytes → Bytes → Bytes)
    (key encrypted_data : Bytes) : Bytes :=
  aeadDec key (encrypted_data.take 12) (encrypted_data.drop 12)

/-! ## LuaAutoHeal (`lua_autoheal.py` lines 361–432)

`LuaAutoHeal.encrypt` forwards straight to the key manager; it never
consults `kill_switch.armed`. -/

structure LuaAutoHeal where
  kill_switch : KillSwitch
  key_manager_key : Bytes

/-- `LuaAutoHeal.encrypt(data)` = `self.key_manager.encrypt(data)` —
the kill-switch state is not read anywhere on this path. -/
def LuaAutoHeal.encrypt (aeadEnc : Bytes → Bytes → Bytes → Bytes)
    (ah : LuaAutoHeal) (nonce data : Bytes) : Bytes :=
  ekmEncrypt aeadEnc ah.key_manager_key nonce data

/-! ## OmegaGate (`omega_gate.py`)

Floats become exact rationals; `datetime.utcnow()` becomes an explicit
rational `now` in seconds; action records keep the fields `compute_omega`
reads. -/

/-- One element of `action_history` (the `metadata` dict is irrelevant to
every computation and is kept as a `Json`). -/
structure ActionRec where
  timestamp : ℚ
  type : String
  confidence : ℚ
  metadata : Json

structure OmegaGate where
  action_history : List ActionRec
  error_timestamps : List ℚ
  validation_results : List Bool
  idempotent_count : Nat
  total_webhooks : Nat

def OmegaGate.init : OmegaGate :=
  { action_history := [], error_timestamps := [], validation_results := [],
    idempotent_count := 0, total_webhooks := 0 }

def W_CVAR : ℚ := 0.4
def W_BETA : ℚ := 0.3
def W_ERR : ℚ := 0.2
def W_IDEM : ℚ := 0.1
def OMEGA_THRESHOLD : ℚ := 0.90
def ALPHA : ℚ := 0.05
def WINDOW_SIZE : Nat := 100

/-- Mean of a list (`np.mean`); 0 on the empty list, which
`_compute_cvar` never reaches. -/
def listMean (l : List ℚ) : ℚ := l.sum / l.length

/-- The last `n` elements of a list (`xs[-n:]`). -/
def takeLast (n : Nat) (l : List α) : List α := l.drop (l.length - n)

/-- `_compute_cvar(confidence_scores, alpha)`: losses `1 - c`, sorted
descending, `cutoff = max(1, int(len * alpha))` (`int` truncates, i.e.
floor for the non-negative product), mean of the first `cutoff` losses;
0 with no samples. -/
def compute_cvar (confidence_scores : List ℚ) (alpha : ℚ) : ℚ :=
  if confidence_scores = [] then 0 else
    let losses := confidence_scores.map (fun score => 1 - score)
    let sorted_losses := losses.insertionSort (fun a b => b ≤ a)
    let cutoff := max 1 (Int.floor ((sorted_losses.length : ℚ) * alpha)).toNat
    let tail_losses := sorted_losses.take cutoff
    listMean tail_losses

/-- `_compute_beta()`: failure fraction of the validation results. -/
def OmegaGate.compute_beta (g : OmegaGate) : ℚ :=
  if g.validation_results = [] then 0 else
    (g.validation_results.countP (fun valid => !valid) : ℚ) /
      (g.validation_results.length : ℚ)

/-- `_compute_err_5m()` at clock `now`: errors in the last five minutes
over actions in the last five minutes; 0 when there are no recent
actions. -/
def OmegaGate.compute_err_5m (now : ℚ) (g : OmegaGate) : ℚ :=
  let five_min_ago := now - 5 * 60
  let recent_errors := g.error_timestamps.countP (fun ts => five_min_ago ≤ ts)
  let recent_actions := g.action_history.countP
    (fun a => five_min_ago ≤ a.timestamp)
  if recent_actions = 0 then 0 else (recent_errors : ℚ) / (recent_actions : ℚ)

/-- `_compute_idem()`: idempotent fraction, 1 with no webhooks. -/
def OmegaGate.compute_idem (g : OmegaGate) : ℚ :=
  if g.total_webhooks = 0 then 1 else
    (g.idempotent_count : ℚ) / (g.total_webhooks : ℚ)

structure OmegaComponents where
  cvar : ℚ
  beta : ℚ
  err_5m : ℚ
  idem : ℚ
  omega : ℚ

/-- `compute_omega()` at clock `now`: CVaR over the confidences of the
last `WINDOW_SIZE` actions, the three other estimators, and the immutable
weighted formula. -/
def OmegaGate.compute_omega (now : ℚ) (g : OmegaGate) : OmegaComponents :=
  let recent_scores := (takeLast WINDOW_SIZE g.action_history).map
    (fun a => a.confidence)
  let cvar := compute_cvar recent_scores ALPHA
  let beta := g.compute_beta
  let err_5m := g.compute_err_5m now
  let idem := g.compute_idem
  { cvar := cvar, beta := beta, err_5m := err_5m, idem := idem,
    omega := W_CVAR * (1 - cvar) + W_BETA * (1 - beta) +
             W_ERR * (1 - err_5m) + W_IDEM * idem }

/-- `record_action(action_type, confidence, metadata)` at clock `now`:
push the action, then cap the history (`len > 2*W` keeps the last `W`). -/
def OmegaGate.record_action (now : ℚ) (ty : String) (confidence : ℚ)
    (metadata : Json) (g : OmegaGate) : OmegaGate :=
  let history := g.action_history ++
    [{ timestamp := now, type := ty, confidence := confidence, metadata := metadata }]
  { g with action_history :=
      if WINDOW_SIZE * 2 < history.length then takeLast WINDOW_SIZE history
      else history }

/-- `record_error()` at clock `now`: push the timestamp, prune to the
last five minutes. -/
def OmegaGate.record_error (now : ℚ) (g : OmegaGate) : OmegaGate :=
  { g with error_timestamps :=
      (g.error_timestamps ++ [now]).filter (fun ts => now - 5 * 60 ≤ ts) }

/-- `record_validation(is_valid)`: push, cap at `W`. -/
def OmegaGate.record_validation (is_valid : Bool) (g : OmegaGate) : OmegaGate :=
  let results := g.validation_results ++ [is_valid]
  { g with validation_results :=
      if WINDOW_SIZE < results.length then takeLast WINDOW_SIZE results
      else results }

/-- `record_webhook(is_idempotent)`: bump the counters. -/
def OmegaGate.record_webhook (is_idempotent : Bool) (g : OmegaGate) : OmegaGate :=
  { g with total_webhooks := g.total_webhooks + 1,
           idempotent_count :=
             if is_idempotent then g.idempotent_count + 1 else g.idempotent_count }

/-- One observation pushed into the gate's windows. -/
inductive GateOp where
  | action (now : ℚ) (ty : String) (confidence : ℚ) (metadata : Json) : GateOp
  | error (now : ℚ) : GateOp
  | validation (is_valid : Bool) : GateOp
  | webhook (is_idempotent : Bool) : GateOp

def OmegaGate.gateStep (g : OmegaGate) : GateOp → OmegaGate
  | .action now ty c md => g.record_action now ty c md
  | .error now => g.record_error now
  | .validation b => g.record_validation b
  | .webhook b => g.record_webhook b

/-- The gate state after a sequence of recording calls. -/
def OmegaGate.runOps (g : OmegaGate) (ops : List GateOp) : OmegaGate :=
  ops.foldl OmegaGate.gateStep g

/-! ## StabilizerRecal (`stabilizer_recal.py`) -/

def CVAR_THRESHOLD : ℚ := 0.15
def CONFIRMATION_WINDOW : ℚ := 5
def PSI_MIN : ℚ := 0.85
def PSI_MAX : ℚ := 0.98
def PSI_DEFAULT : ℚ := 0.90
def PSI_INCREMENT : ℚ := 0.02
def PRICE_INCREMENT : ℚ := 0.20
def MAX_PRICE_MULTIPLIER : ℚ := 3.0

structure SystemState where
  psi_target : ℚ
  cvar : ℚ
  price_multiplier : ℚ
  last_recalibration : ℚ
  recalibration_count : Nat
  attack_mode : Bool

structure StabilizerRecal where
  state : SystemState
  cvar_history : List (ℚ × ℚ)

/-- `__init__(initial_psi)`: `initial_psi or PSI_DEFAULT` — Python `or`
falls back on `None` *and* on the falsy `0.0`. -/
def StabilizerRecal.init (now : ℚ) (initial_psi : Option ℚ) : StabilizerRecal :=
  { state :=
    { psi_target := match initial_psi with
        | none => PSI_DEFAULT
        | some p => if p = 0 then PSI_DEFAULT else p
      cvar := 0, price_multiplier := 1, last_recalibration := now,
      recalibration_count := 0, attack_mode := false },
    cvar_history := [] }

/-- `_should_recalibrate()` at clock `now`: at least 3 samples in the
confirmation window and **all** of them above `CVAR_THRESHOLD`. -/
def StabilizerRecal.should_recalibrate (now : ℚ) (s : StabilizerRecal) : Bool :=
  if s.cvar_history = [] then false else
    let window_start := now - CONFIRMATION_WINDOW
    let recent_cvars := (s.cvar_history.filter
      (fun entry => window_start ≤ entry.1)).map (fun entry => entry.2)
    if recent_cvars = [] then false else
      (recent_cvars.all (fun cvar => CVAR_THRESHOLD < cvar)) &&
        (3 ≤ recent_cvars.length)

/-- `_recalibrate()`: tighten Ψ and price, bump the counter, enter attack
mode (state-history logging does not change the controller state). -/
def StabilizerRecal.recalibrate (now : ℚ) (s : StabilizerRecal) : StabilizerRecal :=
  { s with state :=
    { s.state with
      psi_target := min PSI_MAX (s.state.psi_target + PSI_INCREMENT),
      price_multiplier := min MAX_PRICE_MULTIPLIER
        (s.state.price_multiplier * (1 + PRICE_INCREMENT)),
      last_recalibration := now,
      recalibration_count := s.state.recalibration_count + 1,
      attack_mode := true } }

/-- `update_cvar(cvar)` at clock `now`: push the sample, prune the buffer
to the last 10 seconds, store the current CVaR, then recalibrate when the
confirmation condition holds.  Returns the `True if recalibration
occurred` flag with the new state. -/
def StabilizerRecal.update_cvar (now cvar : ℚ) (s : StabilizerRecal) :
    Bool × StabilizerRecal :=
  let cutoff := now - 10
  let history := (s.cvar_history ++ [(now, cvar)]).filter
    (fun entry => cutoff ≤ entry.1)
  let s' : StabilizerRecal :=
    { state := { s.state with cvar := cvar }, cvar_history := history }
  if s'.should_recalibrate now then (true, s'.recalibrate now) else (false, s')

/-- `_relax()`: loosen Ψ and price; leave attack mode once both are back
at baseline. -/
def StabilizerRecal.relax (s : StabilizerRecal) : StabilizerRecal :=
  let new_psi := max PSI_DEFAULT (s.state.psi_target - PSI_INCREMENT)
  let new_price := max 1 (s.state.price_multiplier / (1 + PRICE_INCREMENT))
  { s with state :=
    { s.state with
      psi_target := new_psi, price_multiplier := new_price,
      attack_mode :=
        if new_psi ≤ PSI_DEFAULT ∧ new_price ≤ 1 then false
        else s.state.attack_mode } }

/-- `try_relax()` at clock `now`: only in attack mode, with at least 10
samples in the last 30 seconds, all below 0.10. -/
def StabilizerRecal.try_relax (now : ℚ) (s : StabilizerRecal) :
    Bool × StabilizerRecal :=
  if ¬ s.state.attack_mode then (false, s) else
    let stability_window := now - 30
    let recent_cvars : List ℚ := (s.cvar_history.filter
      (fun entry => stability_window ≤ entry.1)).map (fun entry => entry.2)
    if recent_cvars = [] then (false, s) else
      if (recent_cvars.all (fun cvar => cvar < 0.10)) &&
          (10 ≤ recent_cvars.length) then (true, s.relax)
      else (false, s)

/-- One external operation on the stabilizer, with its clock reading. -/
inductive StabOp where
  | update (now cvar : ℚ) : StabOp
  | tryRelax (now : ℚ) : StabOp

def StabilizerRecal.step (s : StabilizerRecal) : StabOp → StabilizerRecal
  | .update now cvar => (s.update_cvar now cvar).2
  | .tryRelax now => (s.try_relax now).2

def StabilizerRecal.run (s : StabilizerRecal) (ops : List StabOp) : StabilizerRecal :=
  ops.foldl StabilizerRecal.step s

/-! ## UnifiedMonitor.get_unified_status (`unified_monitor.py` lines 227–261)

The snapshot expression reads `self.omega_gate.omega_threshold` when
`omega_gate` is not `None`.  Python resolves attributes by name against
the instance and class dictionaries; `OmegaGate` defines the class
constant `OMEGA_THRESHOLD` and the instance attributes set in
`__init__`, none of them named `omega_threshold`, so the lookup raises
`AttributeError`. -/

/-- The attribute names an `OmegaGate` object resolves: instance
attributes from `__init__` followed by the class attributes (constants
and methods). -/
def omegaGateAttrNames : List String :=
  ["action_history", "error_timestamps", "validation_results",
   "idempotent_count", "total_webhooks",
   "W_CVAR", "W_BETA", "W_ERR", "W_IDEM", "OMEGA_THRESHOLD", "ALPHA",
   "WINDOW_SIZE",
   "_compute_cvar", "_compute_beta", "_compute_err_5m", "_compute_idem",
   "compute_omega", "check_gate", "record_action", "record_error",
   "record_validation", "record_webhook", "get_status_report"]

/-- `getattr(gate, name)` success/failure. -/
def omegaGateGetattr (name : String) : Except String Unit :=
  if name ∈ omegaGateAttrNames then .ok () else .error ("AttributeError: " ++ name)

/-- The fields of the monitor that the snapshot reads. -/
structure UnifiedMonitor where
  running : Bool
  total_events : Nat
  security_events : Nat
  recalibrations : Nat
  omega_gate : Option OmegaGate
  stabilizer : StabilizerRecal

/-- The `'omega_gate'` section of the snapshot dict. -/
structure OmegaGateSection where
  available : Bool
  threshold : Option ℚ

/-- The parts of the `get_unified_status()` snapshot relevant here
(monitor counters, stabilizer view, omega-gate section). -/
structure UnifiedStatus where
  running : Bool
  total_events : Nat
  security_events : Nat
  recalibrations : Nat
  stabilizer_mode : String
  psi_target : ℚ
  price_multiplier : ℚ
  recalibration_count : Nat
  omega_gate : OmegaGateSection

/-- `get_unified_status()`: building the snapshot evaluates
`self.omega_gate.omega_threshold if self.omega_gate else None`; the
attribute lookup on a present gate raises before any dict is returned. -/
def UnifiedMonitor.get_unified_status (m : UnifiedMonitor) :
    Except String UnifiedStatus :=
  match m.omega_gate with
  | none =>
    .ok { running := m.running, total_events := m.total_events,
          security_events := m.security_events,
          recalibrations := m.recalibrations,
          stabilizer_mode :=
            if m.stabilizer.state.attack_mode then "ATTACK" else "NORMAL",
          psi_target := m.stabilizer.state.psi_target,
          price_multiplier := m.stabilizer.state.price_multiplier,
          recalibration_count := m.stabilizer.state.recalibration_count,
          omega_gate := { available := false, threshold := none } }
  | some _ =>
    match omegaGateGetattr "omega_threshold" with
    | .error e => .error e
    | .ok _ =>
      .ok { running := m.running, total_events := m.total_events,
            security_events := m.security_events,
            recalibrations := m.recalibrations,
            stabilizer_mode :=
              if m.stabilizer.state.attack_mode then "ATTACK" else "NORMAL",
            psi_target := m.stabilizer.state.psi_target,
            price_multiplier := m.stabilizer.state.price_multiplier,
            recalibration_count := m.stabilizer.state.recalibration_count,
            omega_gate := { available := true, threshold := some OMEGA_THRESHOLD } }

/-! ## Spec-side reference definitions for the CVaR estimator (C5) -/

/-- Modelled from the spec: the reference CVaR of C5 — losses `1 - c`,
sorted descending, `k = max(1, ⌈n·α⌉)` (ceiling when `n·α` is not an
integer, which subsumes the integer case), extended to *all* losses tied
with the boundary loss `sorted[k-1]`, arithmetic mean of that tail; 0
with no samples. -/
def refCvarSpec (confidence_scores : List ℚ) (alpha : ℚ) : ℚ :=
  if confidence_scores = [] then 0 else
    let losses := confidence_scores.map (fun score => 1 - score)
    let sorted_losses := losses.insertionSort (fun a b => b ≤ a)
    let k := max 1 (Int.ceil ((sorted_losses.length : ℚ) * alpha)).toNat
    let boundary := sorted_losses.getD (k - 1) 0
    let tail_losses := sorted_losses.filter (fun l => boundary ≤ l)
    listMean tail_losses

/-- The amended reference: identical to the claim's reference except that
`k` truncates (`⌊n·α⌋`) and the tail is exactly the top `k` of the
ascending sort read from the right — stated with an ascending sort so the
equivalence with the code's descending sort is a real statement. -/
def refCvarFloor (confidence_scores : List ℚ) (alpha : ℚ) : ℚ :=
  if confidence_scores = [] then 0 else
    let losses := confidence_scores.map (fun score => 1 - score)
    let asc := losses.insertionSort (fun a b => a ≤ b)
    let k := max 1 (Int.floor ((asc.length : ℚ) * alpha)).toNat
    listMean ((asc.drop (asc.length - k)).reverse)

/-- Sort-relation instances for the descending sort used by
`_compute_cvar`. -/
instance : IsTotal ℚ (fun a b : ℚ => b ≤ a) := ⟨fun a b => le_total b a⟩

instance : IsTrans ℚ (fun a b : ℚ => b ≤ a) := ⟨fun _ _ _ h h₂ => le_trans h₂ h⟩

instance : IsAntisymm ℚ (fun a b : ℚ => b ≤ a) := ⟨fun _ _ h h₂ => le_antisymm h₂ h⟩

instance : IsTotal ℚ (fun a b : ℚ => a ≤ b) := ⟨fun a b => le_total a b⟩

instance : IsTrans ℚ (fun a b : ℚ => a ≤ b) := ⟨fun _ _ _ h h₂ => le_trans h h₂⟩

instance : IsAntisymm ℚ (fun a b : ℚ => a ≤ b) := ⟨fun _ _ h h₂ => le_antisymm h h₂⟩

/-! ## Auxiliary definitions for the serialization-injectivity development -/

/-- A decimal digit character. -/
def isDigitChar (c : Char) : Bool := decide (48 ≤ c.toNat) && decide (c.toNat ≤ 57)

/-- The list does not begin with a digit (the context in which a printed
number can be unambiguously delimited). -/
def headNotDigit : List Char → Prop
  | [] => True
  | c :: _ => isDigitChar c = false

/-- Class of a leading character: which JSON constructor it can open. -/
def charKind (c : Char) : Nat :=
  if c = 'n' then 0
  else if c = 't' ∨ c = 'f' then 1
  else if c = '-' ∨ isDigitChar c = true then 2
  else if c = '"' then 3
  else if c = '[' then 4
  else if c = '{' then 5
  else 6

/-- Constructor index of a JSON value. -/
def kindOf : Json → Nat
  | .null => 0
  | .bool _ => 1
  | .num _ => 2
  | .str _ => 3
  | .arr _ => 4
  | .obj _ => 5

mutual
/-- Node count of a JSON value (induction measure). -/
def sizeJ : Json → Nat
  | .null => 1
  | .bool _ => 1
  | .num _ => 1
  | .str _ => 1
  | .arr xs => 1 + sizeArr xs
  | .obj kvs => 1 + sizePairs kvs

def sizeArr : List Json → Nat
  | [] => 0
  | x :: xs => 1 + sizeJ x + sizeArr xs

def sizePairs : List (String × Json) → Nat
  | [] => 0
  | kv :: rest => 1 + sizeJ kv.2 + sizePairs rest
end

/-- A sequence of `append(event, metadata)` calls (with their
timestamps) against the chain logger. -/
def MerkleChainLogger.appendAll (hash : String → String) (st : MerkleChainLogger)
    (items : List (String × String × Json)) : MerkleChainLogger :=
  items.foldl (fun st item => st.append hash item.1 item.2.1 item.2.2) st

/-! # Theorems -/

/-! ## C8 — AEAD round-trip through the nonce framing -/

/-- C8: for every plaintext, decrypting the result of encrypting it under
the same current ephemeral key returns the plaintext, with the ciphertext
laid out as `nonce || ct || tag` — given that the AES-GCM primitive
satisfies its round-trip law and the nonce is 12 bytes, the key manager's
nonce-prepend/split framing preserves the plaintext. -/
theorem encrypt_decrypt_roundtrip (aeadEnc aeadDec : Bytes → Bytes → Bytes → Bytes)
    (key nonce data : Bytes) (hlen : nonce.length = 12)
    (hround : aeadDec key nonce (aeadEnc key nonce data) = data) :
    ekmDecrypt aeadDec key (ekmEncrypt aeadEnc key nonce data) = data := by
  unfold ekmDecrypt ekmEncrypt
  rw [← hlen, List.take_left, List.drop_left, hround]

/-- C8 witness: a concrete 12-byte nonce and plaintext with a concrete
round-tripping AEAD pair. -/
theorem encrypt_decrypt_roundtrip_witness :
    ekmDecrypt (fun _ _ c => c) [7]
      (ekmEncrypt (fun _ _ d => d) [7] (List.replicate 12 0) [1, 2, 3]) = [1, 2, 3] :=
  encrypt_decrypt_roundtrip (fun _ _ d => d) (fun _ _ c => c) [7]
    (List.replicate 12 0) [1, 2, 3] (by decide) rfl

/-! ## C10 — `get_unified_status` raises `AttributeError` with a live gate -/

/-- C10: whenever `omega_gate` is present, `get_unified_status` fails
with an attribute-lookup error on `omega_threshold` (only the class
constant `OMEGA_THRESHOLD` exists); a snapshot is returned only when
`omega_gate` is `None`. -/
theorem get_unified_status_attr_error (m : UnifiedMonitor) :
    (∀ g, m.omega_gate = some g →
      m.get_unified_status = .error "AttributeError: omega_threshold") ∧
    (m.omega_gate = none → ∃ s, m.get_unified_status = .ok s) := by
  constructor
  · intro g hg
    simp [UnifiedMonitor.get_unified_status, hg, omegaGateGetattr,
      omegaGateAttrNames]
  · intro hg
    exact ⟨_, by unfold UnifiedMonitor.get_unified_status; rw [hg]⟩

/-- C10 witness: a monitor holding a freshly constructed gate fails; the
gate-less monitor returns a snapshot. -/
theorem get_unified_status_attr_error_witness :
    ({ running := true, total_events := 0, security_events := 0,
       recalibrations := 0, omega_gate := some OmegaGate.init,
       stabilizer := StabilizerRecal.init 0 none } :
        UnifiedMonitor).get_unified_status =
      .error "AttributeError: omega_threshold" ∧
    ∃ s, ({ running := true, total_events := 0, security_events := 0,
            recalibrations := 0, omega_gate := none,
            stabilizer := StabilizerRecal.init 0 none } :
        UnifiedMonitor).get_unified_status = .ok s :=
  ⟨(get_unified_status_attr_error _).1 OmegaGate.init rfl,
   (get_unified_status_attr_error _).2 rfl⟩

/-! ## C2 — `append` mutates in-memory state before the disk write -/

/-- C2 (refuted by the code): on a failing disk write, `append` raises to
the caller, but the in-memory chain has already grown by one entry and
`current_root` has already advanced — the source mutates state on lines
83–86 and only then writes to disk on line 89, so the claimed
"state unchanged on error" does not hold. -/
theorem append_disk_failure_mutates_state (hash : String → String)
    (st : MerkleChainLogger) (ts ev : String) (md : Json) :
    (st.append_run hash false ts ev md).2 = .error () ∧
    (st.append_run hash false ts ev md).1.chain.length = st.chain.length + 1 ∧
    (st.append_run hash false ts ev md).1.current_root =
      compute_hash hash (dumps true (entryJson ts ev md st.current_root))
        st.current_root := by
  refine ⟨rfl, ?_, rfl⟩
  simp [MerkleChainLogger.append_run, MerkleChainLogger.append]

/-! ## C3 — kill-switch trip raises `SystemExit`; `encrypt` never refuses -/

/-- C3 (refuted by the code): with threshold 3 and window 60 s, the third
`report_suspicious_event` does not return `tripped=true` — `activate()`
ends in `raise SystemExit`, which propagates out of the report call; and
after activation (`armed = false`) `LuaAutoHeal.encrypt` still produces a
ciphertext, because the encrypt path never consults the kill switch and
no `KillSwitchTripped` refusal exists in the code. -/
theorem kill_switch_trip_diverges :
    ((((KillSwitch.init.report_suspicious_event id 0 "t0" "x").1.report_suspicious_event
        id 1 "t1" "x").1.report_suspicious_event id 2 "t2" "x").2 = .error ()) ∧
    ((((KillSwitch.init.report_suspicious_event id 0 "t0" "x").1.report_suspicious_event
        id 1 "t1" "x").1.report_suspicious_event id 2 "t2" "x").1.armed = false) ∧
    (∀ key_manager_key nonce data,
      LuaAutoHeal.encrypt (fun _ _ d => d)
        { kill_switch := (((KillSwitch.init.report_suspicious_event id 0 "t0"
            "x").1.report_suspicious_event
            id 1 "t1" "x").1.report_suspicious_event id 2 "t2" "x").1,
          key_manager_key := key_manager_key } nonce data = nonce ++ data) := by
  refine ⟨?_, ?_, fun _ _ _ => rfl⟩ <;>
    norm_num [KillSwitch.init, KillSwitch.report_suspicious_event,
      KillSwitch.activate, List.filter]

/-! ## C7 — Stabilizer state invariant -/

/-- Every single stabilizer operation preserves the Ψ and price bounds. -/
theorem StabilizerRecal.step_bounds (s : StabilizerRecal) (op : StabOp)
    (hpl : PSI_MIN ≤ s.state.psi_target) (hpu : s.state.psi_target ≤ PSI_MAX)
    (hml : 1 ≤ s.state.price_multiplier)
    (hmu : s.state.price_multiplier ≤ MAX_PRICE_MULTIPLIER) :
    (PSI_MIN ≤ (s.step op).state.psi_target ∧
      (s.step op).state.psi_target ≤ PSI_MAX) ∧
    (1 ≤ (s.step op).state.price_multiplier ∧
      (s.step op).state.price_multiplier ≤ MAX_PRICE_MULTIPLIER) := by
  have hinc : (0 : ℚ) < 1 + PRICE_INCREMENT := by norm_num [PRICE_INCREMENT]
  cases op with
  | update now cvar =>
    simp only [StabilizerRecal.step, StabilizerRecal.update_cvar]
    split
    · simp only [StabilizerRecal.recalibrate]
      refine ⟨⟨?_, min_le_left _ _⟩, ?_, min_le_left _ _⟩
      · refine le_min (by norm_num [PSI_MIN, PSI_MAX]) ?_
        simp only [PSI_MIN, PSI_INCREMENT] at *
        linarith
      · refine le_min (by norm_num [MAX_PRICE_MULTIPLIER]) ?_
        simp only [PRICE_INCREMENT] at *
        nlinarith
    · exact ⟨⟨hpl, hpu⟩, hml, hmu⟩
  | tryRelax now =>
    simp only [StabilizerRecal.step, StabilizerRecal.try_relax]
    split
    · exact ⟨⟨hpl, hpu⟩, hml, hmu⟩
    · split
      · exact ⟨⟨hpl, hpu⟩, hml, hmu⟩
      · split
        · simp only [StabilizerRecal.relax]
          refine ⟨⟨?_, ?_⟩, le_max_left _ _, ?_⟩
          · exact le_trans (by norm_num [PSI_MIN, PSI_DEFAULT]) (le_max_left _ _)
          · refine max_le (by norm_num [PSI_DEFAULT, PSI_MAX]) ?_
            simp only [PSI_INCREMENT] at *
            linarith
          · refine max_le (by norm_num [MAX_PRICE_MULTIPLIER]) ?_
            rw [div_le_iff₀ hinc]
            simp only [PRICE_INCREMENT, MAX_PRICE_MULTIPLIER] at *
            nlinarith
        · exact ⟨⟨hpl, hpu⟩, hml, hmu⟩

/-- `recalibration_count` never decreases across a single operation. -/
theorem StabilizerRecal.step_count_mono (s : StabilizerRecal) (op : StabOp) :
    s.state.recalibration_count ≤ (s.step op).state.recalibration_count := by
  cases op with
  | update now cvar =>
    simp only [StabilizerRecal.step, StabilizerRecal.update_cvar]
    split
    · simp only [StabilizerRecal.recalibrate]
      exact Nat.le_succ _
    · exact le_refl _
  | tryRelax now =>
    simp only [StabilizerRecal.step, StabilizerRecal.try_relax]
    split
    · exact le_refl _
    · split
      · exact le_refl _
      · split
        · simp only [StabilizerRecal.relax]
          exact le_refl _
        · exact le_refl _

/-- Bounds carry through any operation sequence. -/
theorem StabilizerRecal.run_bounds (ops : List StabOp) (s : StabilizerRecal)
    (hpl : PSI_MIN ≤ s.state.psi_target) (hpu : s.state.psi_target ≤ PSI_MAX)
    (hml : 1 ≤ s.state.price_multiplier)
    (hmu : s.state.price_multiplier ≤ MAX_PRICE_MULTIPLIER) :
    (PSI_MIN ≤ (s.run ops).state.psi_target ∧
      (s.run ops).state.psi_target ≤ PSI_MAX) ∧
    (1 ≤ (s.run ops).state.price_multiplier ∧
      (s.run ops).state.price_multiplier ≤ MAX_PRICE_MULTIPLIER) := by
  induction ops generalizing s with
  | nil => exact ⟨⟨hpl, hpu⟩, hml, hmu⟩
  | cons op rest ih =>
    have h := s.step_bounds op hpl hpu hml hmu
    exact ih (s.step op) h.1.1 h.1.2 h.2.1 h.2.2

/-- C7: from any construction whose initial Ψ lands inside
`[Ψ_min, Ψ_max]` (in particular the default one, which starts at
`Ψ_default = 0.90`), after every sequence of `update_cvar` / `try_relax`
calls the state satisfies `psi_target ∈ [0.85, 0.98]` and
`price_multiplier ∈ [1, 3]`, and `recalibration_count` does not decrease
across any further operation. -/
theorem stabilizer_state_invariant (now0 : ℚ) (initial_psi : Option ℚ)
    (hlo : PSI_MIN ≤ (StabilizerRecal.init now0 initial_psi).state.psi_target)
    (hhi : (StabilizerRecal.init now0 initial_psi).state.psi_target ≤ PSI_MAX)
    (ops : List StabOp) :
    (PSI_MIN ≤ ((StabilizerRecal.init now0 initial_psi).run ops).state.psi_target ∧
      ((StabilizerRecal.init now0 initial_psi).run ops).state.psi_target ≤ PSI_MAX) ∧
    (1 ≤ ((StabilizerRecal.init now0 initial_psi).run ops).state.price_multiplier ∧
      ((StabilizerRecal.init now0 initial_psi).run ops).state.price_multiplier ≤
        MAX_PRICE_MULTIPLIER) ∧
    (∀ op, ((StabilizerRecal.init now0 initial_psi).run ops).state.recalibration_count ≤
      (((StabilizerRecal.init now0 initial_psi).run ops).step op).state.recalibration_count) := by
  have hb := StabilizerRecal.run_bounds ops (StabilizerRecal.init now0 initial_psi)
    hlo hhi (by simp [StabilizerRecal.init]) (by norm_num [StabilizerRecal.init, MAX_PRICE_MULTIPLIER])
  exact ⟨hb.1, hb.2, fun op => StabilizerRecal.step_count_mono _ op⟩

/-- C7 witness: the default construction (`initial_psi = None`), driven
through an update that recalibrates and a relax attempt. -/
theorem stabilizer_state_invariant_witness :
    (PSI_MIN ≤ ((StabilizerRecal.init 0 none).run
        [.update 0 0.2, .update 1 0.2, .update 2 0.2, .tryRelax 3]).state.psi_target ∧
      ((StabilizerRecal.init 0 none).run
        [.update 0 0.2, .update 1 0.2, .update 2 0.2, .tryRelax 3]).state.psi_target ≤ PSI_MAX) ∧
    (1 ≤ ((StabilizerRecal.init 0 none).run
        [.update 0 0.2, .update 1 0.2, .update 2 0.2, .tryRelax 3]).state.price_multiplier ∧
      ((StabilizerRecal.init 0 none).run
        [.update 0 0.2, .update 1 0.2, .update 2 0.2, .tryRelax 3]).state.price_multiplier ≤
        MAX_PRICE_MULTIPLIER) ∧
    (∀ op, ((StabilizerRecal.init 0 none).run
        [.update 0 0.2, .update 1 0.2, .update 2 0.2, .tryRelax 3]).state.recalibration_count ≤
      (((StabilizerRecal.init 0 none).run
        [.update 0 0.2, .update 1 0.2, .update 2 0.2, .tryRelax 3]).step op).state.recalibration_count) :=
  stabilizer_state_invariant 0 none
    (by norm_num [StabilizerRecal.init, PSI_MIN, PSI_DEFAULT])
    (by norm_num [StabilizerRecal.init, PSI_DEFAULT, PSI_MAX])
    [.update 0 0.2, .update 1 0.2, .update 2 0.2, .tryRelax 3]

/-! ## C6 — when `update_cvar` recalibrates -/

/-- `_should_recalibrate` holds exactly when the confirmation window
holds a nonempty sample list, all samples exceed the threshold, and there
are at least three of them. -/
theorem should_recalibrate_iff (now : ℚ) (s : StabilizerRecal) :
    s.should_recalibrate now = true ↔
      ((s.cvar_history.filter
          (fun entry => now - CONFIRMATION_WINDOW ≤ entry.1)).map
          (fun entry => entry.2) ≠ [] ∧
        (∀ c ∈ (s.cvar_history.filter
          (fun entry => now - CONFIRMATION_WINDOW ≤ entry.1)).map
          (fun entry => entry.2), CVAR_THRESHOLD < c) ∧
        3 ≤ ((s.cvar_history.filter
          (fun entry => now - CONFIRMATION_WINDOW ≤ entry.1)).map
          (fun entry => entry.2)).length) := by
  simp only [StabilizerRecal.should_recalibrate]
  split
  · rename_i h
    refine iff_of_false (by simp) ?_
    rintro ⟨hne, -, -⟩
    rw [h] at hne
    simp at hne
  · split
    · rename_i h h₂
      refine iff_of_false (by simp) ?_
      rintro ⟨hne, -, -⟩
      exact hne h₂
    · rename_i h h₂
      rw [Bool.and_eq_true, List.all_eq_true]
      constructor
      · rintro ⟨ha, hl⟩
        exact ⟨h₂, fun c hc => of_decide_eq_true (ha c hc), of_decide_eq_true hl⟩
      · rintro ⟨-, ha, hl⟩
        exact ⟨fun c hc => decide_eq_true (ha c hc), decide_eq_true hl⟩

/-- C6 amended: on each `update_cvar` call, after inserting the new
sample and pruning to the 10-second buffer, a recalibration (exactly one
`recalibration_count` increment) occurs precisely when the confirmation
window holds at least 3 samples and all of them exceed `CVaR_hi = 0.15`
— *regardless of whether the controller is already in ATTACK mode*; and
when fewer than 3 in-window samples exceed `CVaR_hi`, no recalibration
occurs on that call. -/
theorem update_cvar_recal_characterization (now cvar : ℚ) (s : StabilizerRecal) :
    ((s.update_cvar now cvar).1 = true ↔
      ((((s.cvar_history ++ [(now, cvar)]).filter
          (fun entry => now - 10 ≤ entry.1)).filter
          (fun entry => now - CONFIRMATION_WINDOW ≤ entry.1)).map
          (fun entry => entry.2) ≠ [] ∧
        (∀ c ∈ (((s.cvar_history ++ [(now, cvar)]).filter
          (fun entry => now - 10 ≤ entry.1)).filter
          (fun entry => now - CONFIRMATION_WINDOW ≤ entry.1)).map
          (fun entry => entry.2), CVAR_THRESHOLD < c) ∧
        3 ≤ ((((s.cvar_history ++ [(now, cvar)]).filter
          (fun entry => now - 10 ≤ entry.1)).filter
          (fun entry => now - CONFIRMATION_WINDOW ≤ entry.1)).map
          (fun entry => entry.2)).length)) ∧
    ((s.update_cvar now cvar).2.state.recalibration_count =
      s.state.recalibration_count +
        (if (s.update_cvar now cvar).1 then 1 else 0)) ∧
    (((((s.cvar_history ++ [(now, cvar)]).filter
          (fun entry => now - 10 ≤ entry.1)).filter
          (fun entry => now - CONFIRMATION_WINDOW ≤ entry.1)).map
          (fun entry => entry.2)).countP
          (fun c => decide (CVAR_THRESHOLD < c)) < 3 →
      (s.update_cvar now cvar).1 = false) := by
  refine ⟨?_, ?_, ?_⟩
  · simp only [StabilizerRecal.update_cvar]
    split
    · rename_i h
      rw [should_recalibrate_iff] at h
      exact iff_of_true rfl h
    · rename_i h
      rw [should_recalibrate_iff] at h
      exact iff_of_false (by simp) h
  · simp only [StabilizerRecal.update_cvar]
    split
    · simp [StabilizerRecal.recalibrate]
    · simp
  · intro hcount
    simp only [StabilizerRecal.update_cvar]
    split
    · rename_i h
      rw [should_recalibrate_iff] at h
      exfalso
      have hlen := List.countP_eq_length.mpr
        (fun c hc => decide_eq_true (h.2.1 c hc))
      rw [hlen] at hcount
      omega
    · rfl

/-- C6 amended witness: a fresh stabilizer receiving one below-threshold
sample has no in-window sample exceeding the threshold, and indeed does
not recalibrate. -/
theorem update_cvar_recal_characterization_witness :
    ((StabilizerRecal.init 0 none).update_cvar 0 0.05).1 = false :=
  (update_cvar_recal_characterization 0 0.05 (StabilizerRecal.init 0 none)).2.2
    (by norm_num [StabilizerRecal.init, CVAR_THRESHOLD, CONFIRMATION_WINDOW,
      List.filter, List.countP, List.countP.go])

/-- C6 counterexample: four `update_cvar(0.2)` calls at one-second
intervals.  The third call recalibrates and enters ATTACK mode; the
fourth call recalibrates *again* while `attack_mode` was already true —
two recalibrations for a single transition into ATTACK, refuting
"exactly one recalibration per transition". -/
theorem stabilizer_second_recal_without_transition :
    ((StabilizerRecal.init 0 none).run
      [.update 0 0.2, .update 1 0.2, .update 2 0.2]).state.attack_mode = true ∧
    ((StabilizerRecal.init 0 none).run
      [.update 0 0.2, .update 1 0.2, .update 2 0.2]).state.recalibration_count = 1 ∧
    ((StabilizerRecal.init 0 none).run
      [.update 0 0.2, .update 1 0.2, .update 2 0.2,
       .update 3 0.2]).state.attack_mode = true ∧
    ((StabilizerRecal.init 0 none).run
      [.update 0 0.2, .update 1 0.2, .update 2 0.2,
       .update 3 0.2]).state.recalibration_count = 2 := by
  norm_num [StabilizerRecal.run, StabilizerRecal.step, StabilizerRecal.update_cvar,
    StabilizerRecal.init, StabilizerRecal.should_recalibrate,
    StabilizerRecal.recalibrate, CVAR_THRESHOLD, CONFIRMATION_WINDOW,
    PSI_MAX, PSI_DEFAULT, PSI_INCREMENT, PRICE_INCREMENT, MAX_PRICE_MULTIPLIER,
    List.filter, List.foldl, min_def, List.cons_ne_nil, ne_eq,
    not_false_eq_true, and_self, ite_true]


/-! ## C4 — component and Ω ranges -/

theorem listMean_bounds (l : List ℚ) (hne : l ≠ [])
    (hmem : ∀ x ∈ l, 0 ≤ x ∧ x ≤ 1) : 0 ≤ listMean l ∧ listMean l ≤ 1 := by
  have hlen : 0 < (l.length : ℚ) := by exact_mod_cast List.length_pos.mpr hne
  constructor
  · exact div_nonneg (List.sum_nonneg fun x hx => (hmem x hx).1) (le_of_lt hlen)
  · rw [listMean, div_le_one hlen]
    calc l.sum ≤ l.length • (1 : ℚ) :=
          List.sum_le_card_nsmul l 1 (fun x hx => (hmem x hx).2)
      _ = l.length := by simp

theorem compute_cvar_bounds (scores : List ℚ) (alpha : ℚ)
    (hmem : ∀ c ∈ scores, 0 ≤ c ∧ c ≤ 1) :
    0 ≤ compute_cvar scores alpha ∧ compute_cvar scores alpha ≤ 1 := by
  unfold compute_cvar
  split
  · norm_num
  · rename_i hne
    have hsortlen : ((scores.map (fun score => 1 - score)).insertionSort
        (fun a b => b ≤ a)).length = scores.length := by
      rw [(List.perm_insertionSort _ _).length_eq, List.length_map]
    apply listMean_bounds
    · intro htake
      rcases List.take_eq_nil_iff.mp htake with h | h
      · omega
      · rw [h] at hsortlen
        simp only [List.length_nil] at hsortlen
        exact hne (List.length_eq_zero.mp hsortlen.symm)
    · intro x hx
      have hx₂ := (List.perm_insertionSort (fun a b : ℚ => b ≤ a)
        (scores.map (fun score => 1 - score))).mem_iff.mp (List.take_subset _ _ hx)
      rcases List.mem_map.mp hx₂ with ⟨c, hc, rfl⟩
      have := hmem c hc
      constructor <;> linarith [this.1, this.2]

theorem omega_components_bounds (now : ℚ) (g : OmegaGate)
    (hconf : ∀ a ∈ g.action_history, 0 ≤ a.confidence ∧ a.confidence ≤ 1)
    (herr : g.error_timestamps.countP (fun ts => decide (now - 5 * 60 ≤ ts)) ≤
      g.action_history.countP (fun a => decide (now - 5 * 60 ≤ a.timestamp)))
    (hidem : g.idempotent_count ≤ g.total_webhooks) :
    (0 ≤ (g.compute_omega now).cvar ∧ (g.compute_omega now).cvar ≤ 1) ∧
    (0 ≤ (g.compute_omega now).beta ∧ (g.compute_omega now).beta ≤ 1) ∧
    (0 ≤ (g.compute_omega now).err_5m ∧ (g.compute_omega now).err_5m ≤ 1) ∧
    (0 ≤ (g.compute_omega now).idem ∧ (g.compute_omega now).idem ≤ 1) ∧
    (0 ≤ (g.compute_omega now).omega ∧ (g.compute_omega now).omega ≤ 1) := by
  have hcv : 0 ≤ (g.compute_omega now).cvar ∧ (g.compute_omega now).cvar ≤ 1 := by
    simp only [OmegaGate.compute_omega]
    apply compute_cvar_bounds
    intro c hc
    rcases List.mem_map.mp hc with ⟨a, ha, rfl⟩
    exact hconf a (List.drop_subset _ _ ha)
  have hb : 0 ≤ (g.compute_omega now).beta ∧ (g.compute_omega now).beta ≤ 1 := by
    simp only [OmegaGate.compute_omega, OmegaGate.compute_beta]
    split
    · norm_num
    · rename_i hne
      have hlen : 0 < (g.validation_results.length : ℚ) := by
        exact_mod_cast List.length_pos.mpr hne
      constructor
      · positivity
      · rw [div_le_one hlen]
        exact_mod_cast List.countP_le_length _
  have he : 0 ≤ (g.compute_omega now).err_5m ∧ (g.compute_omega now).err_5m ≤ 1 := by
    simp only [OmegaGate.compute_omega, OmegaGate.compute_err_5m]
    split
    · norm_num
    · rename_i hne
      have hpos : 0 < (g.action_history.countP
          (fun a => decide (now - 5 * 60 ≤ a.timestamp)) : ℚ) := by
        exact_mod_cast Nat.pos_of_ne_zero hne
      constructor
      · positivity
      · rw [div_le_one hpos]
        exact_mod_cast herr
  have hi : 0 ≤ (g.compute_omega now).idem ∧ (g.compute_omega now).idem ≤ 1 := by
    simp only [OmegaGate.compute_omega, OmegaGate.compute_idem]
    split
    · norm_num
    · rename_i hne
      have hpos : 0 < (g.total_webhooks : ℚ) := by
        exact_mod_cast Nat.pos_of_ne_zero hne
      constructor
      · positivity
      · rw [div_le_one hpos]
        exact_mod_cast hidem
  refine ⟨hcv, hb, he, hi, ?_⟩
  have homega : (g.compute_omega now).omega =
      W_CVAR * (1 - (g.compute_omega now).cvar) +
      W_BETA * (1 - (g.compute_omega now).beta) +
      W_ERR * (1 - (g.compute_omega now).err_5m) +
      W_IDEM * (g.compute_omega now).idem := rfl
  rw [homega]
  simp only [W_CVAR, W_BETA, W_ERR, W_IDEM]
  constructor <;> nlinarith [hcv.1, hcv.2, hb.1, hb.2, he.1, he.2, hi.1, hi.2]

theorem gateStep_idem_le_total (g : OmegaGate) (op : GateOp)
    (h : g.idempotent_count ≤ g.total_webhooks) :
    (g.gateStep op).idempotent_count ≤ (g.gateStep op).total_webhooks := by
  cases op with
  | action now ty c md => exact h
  | error now => exact h
  | validation b => exact h
  | webhook b =>
    simp only [OmegaGate.gateStep, OmegaGate.record_webhook]
    split <;> omega

theorem runOps_idem_le_total (ops : List GateOp) :
    (OmegaGate.init.runOps ops).idempotent_count ≤
      (OmegaGate.init.runOps ops).total_webhooks := by
  suffices h : ∀ g : OmegaGate, g.idempotent_count ≤ g.total_webhooks →
      (g.runOps ops).idempotent_count ≤ (g.runOps ops).total_webhooks from
    h OmegaGate.init (le_refl 0)
  induction ops with
  | nil => exact fun g hg => hg
  | cons op rest ih =>
    exact fun g hg => ih (g.gateStep op) (gateStep_idem_le_total g op hg)

theorem compute_beta_bounds (now : ℚ) (g : OmegaGate) :
    0 ≤ (g.compute_omega now).beta ∧ (g.compute_omega now).beta ≤ 1 := by
  simp only [OmegaGate.compute_omega, OmegaGate.compute_beta]
  split
  · norm_num
  · rename_i hne
    have hlen : 0 < (g.validation_results.length : ℚ) := by
      exact_mod_cast List.length_pos.mpr hne
    constructor
    · positivity
    · rw [div_le_one hlen]
      exact_mod_cast List.countP_le_length _

theorem compute_idem_bounds (now : ℚ) (g : OmegaGate)
    (hidem : g.idempotent_count ≤ g.total_webhooks) :
    0 ≤ (g.compute_omega now).idem ∧ (g.compute_omega now).idem ≤ 1 := by
  simp only [OmegaGate.compute_omega, OmegaGate.compute_idem]
  split
  · norm_num
  · rename_i hne
    have hpos : 0 < (g.total_webhooks : ℚ) := by
      exact_mod_cast Nat.pos_of_ne_zero hne
    constructor
    · positivity
    · rw [div_le_one hpos]
      exact_mod_cast hidem

/-- C4 amended: after any sequence of recording calls, `beta` and `idem`
always lie in `[0,1]` — unconditionally; and provided every recorded
confidence lies in `[0,1]` and the five-minute window holds no more
errors than actions, `cvar`, `err_5m` and `omega` lie in `[0,1]` as
well. -/
theorem compute_omega_range (now : ℚ) (ops : List GateOp) :
    (0 ≤ ((OmegaGate.init.runOps ops).compute_omega now).beta ∧
      ((OmegaGate.init.runOps ops).compute_omega now).beta ≤ 1) ∧
    (0 ≤ ((OmegaGate.init.runOps ops).compute_omega now).idem ∧
      ((OmegaGate.init.runOps ops).compute_omega now).idem ≤ 1) ∧
    ((∀ a ∈ (OmegaGate.init.runOps ops).action_history,
        0 ≤ a.confidence ∧ a.confidence ≤ 1) →
      (OmegaGate.init.runOps ops).error_timestamps.countP
          (fun ts => decide (now - 5 * 60 ≤ ts)) ≤
        (OmegaGate.init.runOps ops).action_history.countP
          (fun a => decide (now - 5 * 60 ≤ a.timestamp)) →
      (0 ≤ ((OmegaGate.init.runOps ops).compute_omega now).cvar ∧
        ((OmegaGate.init.runOps ops).compute_omega now).cvar ≤ 1) ∧
      (0 ≤ ((OmegaGate.init.runOps ops).compute_omega now).err_5m ∧
        ((OmegaGate.init.runOps ops).compute_omega now).err_5m ≤ 1) ∧
      (0 ≤ ((OmegaGate.init.runOps ops).compute_omega now).omega ∧
        ((OmegaGate.init.runOps ops).compute_omega now).omega ≤ 1)) := by
  refine ⟨compute_beta_bounds now _,
    compute_idem_bounds now _ (runOps_idem_le_total ops), ?_⟩
  intro hconf herr
  obtain ⟨hcv, _, he, _, ho⟩ :=
    omega_components_bounds now (OmegaGate.init.runOps ops) hconf herr
      (runOps_idem_le_total ops)
  exact ⟨hcv, he, ho⟩

/-- C4 witness: one perfect action, validation and webhook; the
unconditional `beta`/`idem` bounds are taken directly and the guarded
`cvar`/`err_5m`/`omega` bounds have their two provisos discharged at
this concrete input. -/
theorem compute_omega_range_witness :
    (0 ≤ ((OmegaGate.init.runOps [.action 0 "deploy" 1 (.obj []), .validation true,
        .webhook true]).compute_omega 0).beta ∧
      ((OmegaGate.init.runOps [.action 0 "deploy" 1 (.obj []), .validation true,
        .webhook true]).compute_omega 0).beta ≤ 1) ∧
    (0 ≤ ((OmegaGate.init.runOps [.action 0 "deploy" 1 (.obj []), .validation true,
        .webhook true]).compute_omega 0).idem ∧
      ((OmegaGate.init.runOps [.action 0 "deploy" 1 (.obj []), .validation true,
        .webhook true]).compute_omega 0).idem ≤ 1) ∧
    (0 ≤ ((OmegaGate.init.runOps [.action 0 "deploy" 1 (.obj []), .validation true,
        .webhook true]).compute_omega 0).cvar ∧
      ((OmegaGate.init.runOps [.action 0 "deploy" 1 (.obj []), .validation true,
        .webhook true]).compute_omega 0).cvar ≤ 1) ∧
    (0 ≤ ((OmegaGate.init.runOps [.action 0 "deploy" 1 (.obj []), .validation true,
        .webhook true]).compute_omega 0).err_5m ∧
      ((OmegaGate.init.runOps [.action 0 "deploy" 1 (.obj []), .validation true,
        .webhook true]).compute_omega 0).err_5m ≤ 1) ∧
    (0 ≤ ((OmegaGate.init.runOps [.action 0 "deploy" 1 (.obj []), .validation true,
        .webhook true]).compute_omega 0).omega ∧
      ((OmegaGate.init.runOps [.action 0 "deploy" 1 (.obj []), .validation true,
        .webhook true]).compute_omega 0).omega ≤ 1) :=
  ⟨(compute_omega_range 0 [.action 0 "deploy" 1 (.obj []), .validation true,
      .webhook true]).1,
   (compute_omega_range 0 [.action 0 "deploy" 1 (.obj []), .validation true,
      .webhook true]).2.1,
   (compute_omega_range 0 [.action 0 "deploy" 1 (.obj []), .validation true,
      .webhook true]).2.2
    (by
      intro a ha
      simp [OmegaGate.runOps, OmegaGate.gateStep, OmegaGate.record_action,
        OmegaGate.record_validation, OmegaGate.record_webhook, OmegaGate.init,
        WINDOW_SIZE, List.foldl] at ha
      rw [ha]
      norm_num)
    (by
      norm_num [OmegaGate.runOps, OmegaGate.gateStep, OmegaGate.record_action,
        OmegaGate.record_validation, OmegaGate.record_webhook, OmegaGate.init,
        WINDOW_SIZE, List.foldl, List.countP, List.countP.go])⟩

/-- C4 counterexample: two errors recorded against one action put
`err_5m = 2` outside `[0, 1]` (the estimator is not clamped and the
error and action windows are counted independently). -/
theorem compute_omega_err_out_of_range :
    ((OmegaGate.init.runOps [.action 0 "deploy" 1 (.obj []), .error 0,
        .error 0]).compute_omega 0).err_5m = 2 ∧
    ¬ (((OmegaGate.init.runOps [.action 0 "deploy" 1 (.obj []), .error 0,
        .error 0]).compute_omega 0).err_5m ≤ 1) := by
  norm_num [OmegaGate.runOps, OmegaGate.gateStep, OmegaGate.record_action,
    OmegaGate.record_error, OmegaGate.init, OmegaGate.compute_omega,
    OmegaGate.compute_err_5m, WINDOW_SIZE, List.foldl, List.countP,
    List.countP.go, List.filter]

/-! ## C5 — the CVaR estimator versus its reference definition -/

/-- The descending sort is the reverse of the ascending sort (duplicate
rational values are indistinguishable, so stability is unobservable). -/
theorem insertionSort_desc_eq_reverse_asc (losses : List ℚ) :
    List.insertionSort (fun a b : ℚ => b ≤ a) losses =
      (List.insertionSort (fun a b : ℚ => a ≤ b) losses).reverse := by
  refine List.eq_of_perm_of_sorted ?_ (List.sorted_insertionSort _ _) ?_
  · exact ((List.perm_insertionSort _ _).trans
      (List.perm_insertionSort _ _).symm).trans (List.reverse_perm _).symm
  · exact List.pairwise_reverse.mpr (List.sorted_insertionSort _ _)

/-- C5 amended: the code's CVaR equals the floor-based reference — losses
sorted, `k = max(1, ⌊n·α⌋)` with `int()` truncation, the tail being
exactly the `k` largest losses with no tie expansion, arithmetic mean of
that tail (0 with no samples). -/
theorem compute_cvar_eq_refFloor (scores : List ℚ) :
    compute_cvar scores ALPHA = refCvarFloor scores ALPHA := by
  unfold compute_cvar refCvarFloor
  by_cases h : scores = []
  · simp [h]
  · simp only [if_neg h]
    rw [insertionSort_desc_eq_reverse_asc, List.length_reverse,
      List.length_insertionSort, List.take_reverse, List.length_insertionSort]

theorem cvar_estimator_ne_spec_reference :
    compute_cvar ([0.8, 0.9] ++ List.replicate 19 1) ALPHA = 1/5 ∧
    refCvarSpec ([0.8, 0.9] ++ List.replicate 19 1) ALPHA = 3/20 ∧
    compute_cvar ([0.8, 0.9] ++ List.replicate 19 1) ALPHA ≠
      refCvarSpec ([0.8, 0.9] ++ List.replicate 19 1) ALPHA := by
  have hfl : (⌊(21/20 : ℚ)⌋).toNat = 1 := by
    have h : ⌊(21/20 : ℚ)⌋ = 1 := by
      rw [Int.floor_eq_iff]
      norm_num
    rw [h]; rfl
  have hcl : (⌈(21/20 : ℚ)⌉).toNat = 2 := by
    have h : ⌈(21/20 : ℚ)⌉ = 2 := by
      rw [Int.ceil_eq_iff]
      norm_num
    rw [h]; rfl
  norm_num [compute_cvar, refCvarSpec, listMean, ALPHA, List.insertionSort,
    List.orderedInsert, List.replicate, List.filter, hfl, hcl,
    List.cons_ne_nil, ne_eq, not_false_eq_true, ite_true, ite_false]


/-! ## Key-order lemmas (shared by the serialization results) -/

theorem listLtb_irrefl (a : List Char) : listLtb a a = false := by
  induction a with
  | nil => rfl
  | cons c cs ih => simp [listLtb, ih]

theorem listLtb_asymm (a : List Char) :
    ∀ b, listLtb a b = true → listLtb b a = false := by
  induction a with
  | nil =>
    intro b h
    cases b with
    | nil => simp [listLtb] at h
    | cons d ds => rfl
  | cons c cs ih =>
    intro b h
    cases b with
    | nil => simp [listLtb] at h
    | cons d ds =>
      simp only [listLtb] at h ⊢
      split at h
      · rename_i h1
        rw [if_neg (by omega), if_pos h1]
      · split at h
        · simp at h
        · rename_i h1 h2
          rw [if_neg h2, if_neg h1]
          exact ih ds h

theorem listLtb_trans (a : List Char) :
    ∀ b c, listLtb a b = true → listLtb b c = true → listLtb a c = true := by
  induction a with
  | nil =>
    intro b c hab hbc
    cases b with
    | nil => simp [listLtb] at hab
    | cons d ds =>
      cases c with
      | nil => simp [listLtb] at hbc
      | cons e es => rfl
  | cons x xs ih =>
    intro b c hab hbc
    cases b with
    | nil => simp [listLtb] at hab
    | cons y ys =>
      cases c with
      | nil => simp [listLtb] at hbc
      | cons z zs =>
        simp only [listLtb] at hab hbc ⊢
        split at hab
        · rename_i hxy
          split at hbc
          · rename_i hyz
            rw [if_pos (by omega)]
          · split at hbc
            · simp at hbc
            · rename_i h1 h2
              rw [if_pos (by omega)]
        · split at hab
          · simp at hab
          · rename_i h1 h2
            split at hbc
            · rename_i hyz
              rw [if_pos (by omega)]
            · split at hbc
              · simp at hbc
              · rename_i h3 h4
                rw [if_neg (by omega), if_neg (by omega)]
                exact ih ys zs hab hbc

theorem listLtb_connex (a : List Char) :
    ∀ b, listLtb a b = false → listLtb b a = false → a = b := by
  induction a with
  | nil =>
    intro b hab _
    cases b with
    | nil => rfl
    | cons d ds => simp [listLtb] at hab
  | cons c cs ih =>
    intro b hab hba
    cases b with
    | nil => simp [listLtb] at hba
    | cons d ds =>
      simp only [listLtb] at hab hba
      split at hab
      · simp at hab
      · split at hab
        · rename_i h1 h2
          rw [if_pos h2] at hba
          simp at hba
        · rename_i h1 h2
          have hcd : c = d := Char.ext (UInt32.ext (show c.toNat = d.toNat by omega))
          rw [if_neg h2, if_neg h1] at hba
          rw [hcd, ih ds hab hba]

theorem strLeb_total (a b : String) : strLeb a b = true ∨ strLeb b a = true := by
  by_cases h : listLtb b.data a.data = true
  · right
    have := listLtb_asymm _ _ h
    simp [strLeb, strLtb, this]
  · left
    simp only [Bool.not_eq_true] at h
    simp [strLeb, strLtb, h]

theorem strLeb_trans (a b c : String) (hab : strLeb a b = true)
    (hbc : strLeb b c = true) : strLeb a c = true := by
  simp only [strLeb, strLtb, Bool.not_eq_true'] at hab hbc ⊢
  by_contra hcon
  simp only [Bool.not_eq_false] at hcon
  rcases Bool.eq_false_or_eq_true (listLtb b.data c.data) with hx | hx
  · have := listLtb_trans b.data c.data a.data hx hcon
    rw [this] at hab
    simp at hab
  · have hbceq : b.data = c.data := listLtb_connex b.data c.data hx hbc
    rw [← hbceq] at hcon
    rw [hcon] at hab
    simp at hab

theorem strLeb_antisymm (a b : String) (hab : strLeb a b = true)
    (hba : strLeb b a = true) : a = b := by
  simp only [strLeb, strLtb, Bool.not_eq_true'] at hab hba
  have := listLtb_connex a.data b.data hba hab
  exact String.ext this

theorem strLtb_of_leb_ne (a b : String) (hle : strLeb a b = true) (hne : a ≠ b) :
    strLtb a b = true := by
  simp only [strLeb, strLtb, Bool.not_eq_true'] at hle ⊢
  by_contra hcon
  simp only [Bool.not_eq_true] at hcon
  exact hne (String.ext (listLtb_connex a.data b.data hcon hle))

theorem insertPair_perm (p : String × List Char) (l : List (String × List Char)) :
    List.Perm (insertPair p l) (p :: l) := by
  induction l with
  | nil => exact List.Perm.refl _
  | cons q rest ih =>
    simp only [insertPair]
    split
    · exact List.Perm.refl _
    · exact (ih.cons q).trans (List.Perm.swap p q rest)

theorem sortPairs_perm (l : List (String × List Char)) : List.Perm (sortPairs l) l := by
  induction l with
  | nil => exact List.Perm.refl _
  | cons p rest ih =>
    exact (insertPair_perm p (sortPairs rest)).trans (ih.cons p)

theorem mem_insertPair (x p : String × List Char) (l : List (String × List Char)) :
    x ∈ insertPair p l ↔ x = p ∨ x ∈ l := by
  rw [(insertPair_perm p l).mem_iff, List.mem_cons]

theorem insertPair_pairwise (p : String × List Char) (l : List (String × List Char))
    (hl : l.Pairwise (fun a b => strLeb a.1 b.1 = true)) :
    (insertPair p l).Pairwise (fun a b => strLeb a.1 b.1 = true) := by
  induction l with
  | nil => simp [insertPair]
  | cons q rest ih =>
    simp only [insertPair]
    split
    · rename_i hpq
      refine List.Pairwise.cons ?_ hl
      intro x hx
      rcases List.mem_cons.mp hx with rfl | hx
      · exact hpq
      · exact strLeb_trans _ _ _ hpq ((List.pairwise_cons.mp hl).1 x hx)
    · rename_i hpq
      have hqp : strLeb q.1 p.1 = true := by
        rcases strLeb_total p.1 q.1 with h | h
        · exact absurd h hpq
        · exact h
      rcases List.pairwise_cons.mp hl with ⟨hq, hrest⟩
      refine List.Pairwise.cons ?_ (ih hrest)
      intro x hx
      rcases (mem_insertPair x p rest).mp hx with rfl | hx
      · exact hqp
      · exact hq x hx

theorem sortPairs_pairwise (l : List (String × List Char)) :
    (sortPairs l).Pairwise (fun a b => strLeb a.1 b.1 = true) := by
  induction l with
  | nil => simp [sortPairs]
  | cons p rest ih => exact insertPair_pairwise p (sortPairs rest) ih

theorem sortPairs_eq_self (l : List (String × List Char))
    (hl : l.Pairwise (fun a b => strLeb a.1 b.1 = true)) : sortPairs l = l := by
  induction l with
  | nil => rfl
  | cons p rest ih =>
    rcases List.pairwise_cons.mp hl with ⟨hp, hrest⟩
    simp only [sortPairs, ih hrest]
    cases rest with
    | nil => rfl
    | cons q rest₂ =>
      simp only [insertPair, if_pos (hp q (List.mem_cons_self q rest₂))]

theorem sorted_pairs_nodup_eq (l₁ l₂ : List (String × List Char)) (hperm : List.Perm l₁ l₂)
    (h₁ : l₁.Pairwise (fun a b => strLeb a.1 b.1 = true))
    (h₂ : l₂.Pairwise (fun a b => strLeb a.1 b.1 = true))
    (hnd : (l₁.map Prod.fst).Nodup) : l₁ = l₂ := by
  letI : IsAntisymm (String × List Char) (fun a b => strLtb a.1 b.1 = true) :=
    ⟨fun a b h h' => absurd h' (by
      have := listLtb_asymm a.1.data b.1.data (by simpa [strLtb] using h)
      simp [strLtb, this])⟩
  have key : ∀ l : List (String × List Char),
      l.Pairwise (fun a b => strLeb a.1 b.1 = true) →
      (l.map Prod.fst).Nodup → l.Pairwise (fun a b => strLtb a.1 b.1 = true) := by
    intro l
    induction l with
    | nil => intro _ _; exact List.Pairwise.nil
    | cons p rest ih =>
      intro hle hnd
      rcases List.pairwise_cons.mp hle with ⟨hp, hrest⟩
      rw [List.map_cons, List.nodup_cons] at hnd
      refine List.Pairwise.cons ?_ (ih hrest hnd.2)
      intro x hx
      refine strLtb_of_leb_ne _ _ (hp x hx) ?_
      intro hcon
      exact hnd.1 (hcon ▸ List.mem_map_of_mem Prod.fst hx)
  have hnd₂ : (l₂.map Prod.fst).Nodup := ((hperm.map Prod.fst).nodup_iff).mp hnd
  exact List.eq_of_perm_of_sorted hperm (key l₁ h₁ hnd) (key l₂ h₂ hnd₂)

/-! ## C9 — what `append` actually serializes -/

theorem dumpsPairs_eq_map (sk : Bool) (l : List (String × Json)) :
    dumpsPairs sk l = l.map (fun kv => (kv.1, dumpsJ sk kv.2)) := by
  induction l with
  | nil => simp [dumpsPairs]
  | cons kv rest ih => simp [dumpsPairs, ih]

theorem sortPairs_ne_nil (l : List (String × List Char)) (h : l ≠ []) :
    sortPairs l ≠ [] := by
  intro hcon
  have hlen := (sortPairs_perm l).length_eq
  rw [hcon] at hlen
  simp only [List.length_nil] at hlen
  exact h (List.length_eq_zero.mp hlen.symm)

theorem space_mem_joinObj (l : List (String × List Char)) (h : l ≠ []) :
    ' ' ∈ joinObj l := by
  match l with
  | [(k, v)] => simp [joinObj]
  | (k, v) :: q :: rest => simp [joinObj]

/-- C9 amended: the serialization that `append` hashes is
key-order-deterministic — permuting the metadata dict's (distinct) keys
does not change it, i.e. keys are serialized sorted — but it is *not*
whitespace-free: Python's default `', '` / `': '` separators put a space
after every colon and comma. -/
theorem hashed_serialization_sorted_but_spaced (ts ev pr : String)
    (kvs kvs' : List (String × Json)) (hperm : List.Perm kvs kvs')
    (hnd : (kvs.map Prod.fst).Nodup) :
    dumps true (entryJson ts ev (.obj kvs) pr) =
      dumps true (entryJson ts ev (.obj kvs') pr) ∧
    ' ' ∈ (dumps true (entryJson ts ev (.obj kvs) pr)).data := by
  have hkeys : (dumpsPairs true kvs).map Prod.fst = kvs.map Prod.fst := by
    rw [dumpsPairs_eq_map, List.map_map]
    rfl
  have hsort : sortPairs (dumpsPairs true kvs) = sortPairs (dumpsPairs true kvs') := by
    refine sorted_pairs_nodup_eq _ _ ?_ (sortPairs_pairwise _) (sortPairs_pairwise _) ?_
    · refine (sortPairs_perm _).trans (List.Perm.trans ?_ (sortPairs_perm _).symm)
      rw [dumpsPairs_eq_map, dumpsPairs_eq_map]
      exact hperm.map _
    · refine ((sortPairs_perm (dumpsPairs true kvs)).map Prod.fst).nodup_iff.mpr ?_
      rw [hkeys]
      exact hnd
  constructor
  · simp only [dumps, entryJson, dumpsJ, dumpsPairs, if_true]
    rw [hsort]
  · simp only [dumps, entryJson, dumpsJ, dumpsPairs, if_true]
    refine List.mem_cons_of_mem _ (List.mem_append_left _ ?_)
    exact space_mem_joinObj _ (sortPairs_ne_nil _ (by simp))

/-- C9 amended witness: permuting two distinct metadata keys leaves the
hashed serialization unchanged, and that serialization contains a
space. -/
theorem hashed_serialization_sorted_but_spaced_witness :
    dumps true (entryJson "T" "E" (.obj [("b", .num 1), ("a", .str "x")]) "P") =
      dumps true (entryJson "T" "E" (.obj [("a", .str "x"), ("b", .num 1)]) "P") ∧
    ' ' ∈ (dumps true (entryJson "T" "E"
      (.obj [("b", .num 1), ("a", .str "x")]) "P")).data :=
  hashed_serialization_sorted_but_spaced "T" "E" "P" _ _
    (List.Perm.swap (("a", Json.str "x") : String × Json) ("b", Json.num 1) []) (by decide)

/-- C9 counterexample: on a concrete entry, the persisted line is not in
key-sorted order (the dict is dumped in insertion order without
`sort_keys`), and the hashed serialization is not the spec's canonical
JSON — it contains insignificant whitespace. -/
theorem chain_serialization_not_canonical :
    ChainEntry.persistedLine
        { timestamp := "2025-01-01T00:00:00", event := "A", metadata := .obj [],
          prev_root := genesisRoot, merkle_root := "R" } ≠
      dumps true (.obj [("timestamp", .str "2025-01-01T00:00:00"), ("event", .str "A"),
        ("metadata", .obj []), ("prev_root", .str genesisRoot),
        ("merkle_root", .str "R")]) ∧
    ChainEntry.serialize
        { timestamp := "2025-01-01T00:00:00", event := "A", metadata := .obj [],
          prev_root := genesisRoot, merkle_root := "R" } ≠
      canonDumps (entryJson "2025-01-01T00:00:00" "A" (.obj []) genesisRoot) ∧
    ' ' ∈ (ChainEntry.serialize
        { timestamp := "2025-01-01T00:00:00", event := "A", metadata := .obj [],
          prev_root := genesisRoot, merkle_root := "R" }).data := by
  refine ⟨?_, ?_, ?_⟩ <;>
    simp only [ChainEntry.persistedLine, ChainEntry.serialize, dumps, entryJson,
      canonDumps, dumpsJ, dumpsPairs, canonDumpsJ, canonDumpsPairs, if_true,
      ne_eq] <;>
    decide

/-! ## C1 — serialization injectivity: string literals -/

theorem escapeStr_prefix : ∀ (x y s t : List Char),
    escapeStr x ++ '"' :: s = escapeStr y ++ '"' :: t → x = y ∧ s = t := by
  intro x
  induction x with
  | nil =>
    intro y s t h
    cases y with
    | nil =>
      refine ⟨rfl, ?_⟩
      simpa using h
    | cons d ds =>
      exfalso
      simp only [escapeStr, List.nil_append, List.append_assoc] at h
      by_cases hd : d = '"'
      · rw [hd] at h
        simp [escapeChar] at h
      · by_cases hd₂ : d = '\\'
        · rw [hd₂] at h
          simp [escapeChar] at h
        · simp only [escapeChar, if_neg hd, if_neg hd₂, List.cons_append,
            List.nil_append] at h
          exact hd (List.cons_eq_cons.mp h).1.symm
  | cons c cs ih =>
    intro y s t h
    cases y with
    | nil =>
      exfalso
      simp only [escapeStr, List.nil_append, List.append_assoc] at h
      by_cases hc : c = '"'
      · rw [hc] at h
        simp [escapeChar] at h
      · by_cases hc₂ : c = '\\'
        · rw [hc₂] at h
          simp [escapeChar] at h
        · simp only [escapeChar, if_neg hc, if_neg hc₂, List.cons_append,
            List.nil_append] at h
          exact hc (List.cons_eq_cons.mp h).1
    | cons d ds =>
      simp only [escapeStr, List.append_assoc] at h
      by_cases hc : c = '"'
      · by_cases hd : d = '"'
        · rw [hc, hd] at h
          simp only [escapeChar, if_pos rfl, List.cons_append, List.nil_append] at h
          obtain ⟨h₁, h₂⟩ := List.cons_eq_cons.mp h
          obtain ⟨h₃, h₄⟩ := List.cons_eq_cons.mp h₂
          obtain ⟨hcd, hst⟩ := ih ds s t h₄
          exact ⟨by rw [hc, hd, hcd], hst⟩
        · by_cases hd₂ : d = '\\'
          · rw [hc, hd₂] at h
            simp [escapeChar] at h
          · rw [hc] at h
            simp only [escapeChar, if_pos rfl, if_neg hd, if_neg hd₂,
              List.cons_append, List.nil_append] at h
            exact absurd (List.cons_eq_cons.mp h).1.symm hd₂
      · by_cases hc₂ : c = '\\'
        · by_cases hd : d = '"'
          · rw [hc₂, hd] at h
            simp [escapeChar] at h
          · by_cases hd₂ : d = '\\'
            · rw [hc₂, hd₂] at h
              simp only [escapeChar, if_neg (by decide : ¬('\\' : Char) = '"'),
                if_pos rfl, List.cons_append, List.nil_append] at h
              obtain ⟨h₁, h₂⟩ := List.cons_eq_cons.mp h
              obtain ⟨h₃, h₄⟩ := List.cons_eq_cons.mp h₂
              obtain ⟨hcd, hst⟩ := ih ds s t h₄
              exact ⟨by rw [hc₂, hd₂, hcd], hst⟩
            · rw [hc₂] at h
              simp only [escapeChar, if_neg (by decide : ¬('\\' : Char) = '"'),
                if_pos rfl, if_neg hd, if_neg hd₂, List.cons_append,
                List.nil_append] at h
              exact absurd (List.cons_eq_cons.mp h).1.symm hd₂
        · by_cases hd : d = '"'
          · rw [hd] at h
            simp only [escapeChar, if_pos rfl, if_neg hc, if_neg hc₂,
              List.cons_append, List.nil_append] at h
            exact absurd (List.cons_eq_cons.mp h).1 hc₂
          · by_cases hd₂ : d = '\\'
            · rw [hd₂] at h
              simp only [escapeChar, if_neg (by decide : ¬('\\' : Char) = '"'),
                if_pos rfl, if_neg hc, if_neg hc₂, List.cons_append,
                List.nil_append] at h
              exact absurd (List.cons_eq_cons.mp h).1 hc₂
            · simp only [escapeChar, if_neg hc, if_neg hc₂, if_neg hd, if_neg hd₂,
                List.cons_append, List.nil_append] at h
              obtain ⟨h₁, h₂⟩ := List.cons_eq_cons.mp h
              obtain ⟨hcd, hst⟩ := ih ds s t h₂
              exact ⟨by rw [h₁, hcd], hst⟩

theorem dumpStr_prefix (a b : String) (s t : List Char)
    (h : dumpStr a ++ s = dumpStr b ++ t) : a = b ∧ s = t := by
  simp only [dumpStr, List.cons_append, List.append_assoc, List.singleton_append]
    at h
  obtain ⟨-, h₂⟩ := List.cons_eq_cons.mp h
  obtain ⟨hd, hst⟩ := escapeStr_prefix a.data b.data s t h₂
  exact ⟨String.ext hd, hst⟩

/-! ## C1 — serialization injectivity: numbers -/

theorem natRepr_digits (n : Nat) : ∀ c ∈ natRepr n, isDigitChar c = true := by
  unfold natRepr
  split
  · intro c hc
    simp only [List.mem_singleton] at hc
    subst hc
    decide
  · intro c hc
    rw [List.mem_map] at hc
    obtain ⟨d, hd, rfl⟩ := hc
    have hd10 : d < 10 :=
      Nat.digits_lt_base (by norm_num) (List.mem_reverse.mp hd)
    interval_cases d <;> decide

theorem natRepr_ne_nil (n : Nat) : natRepr n ≠ [] := by
  unfold natRepr
  split
  · simp
  · rename_i hn
    simp [Nat.digits_ne_nil_iff_ne_zero.mpr hn]

theorem map_digitChar_inj : ∀ (as bs : List Nat), (∀ a ∈ as, a < 10) →
    (∀ b ∈ bs, b < 10) → as.map digitChar = bs.map digitChar → as = bs := by
  intro as
  induction as with
  | nil =>
    intro bs _ _ h
    cases bs with
    | nil => rfl
    | cons b bs => simp at h
  | cons a as ih =>
    intro bs ha hb h
    cases bs with
    | nil => simp at h
    | cons b bs =>
      simp only [List.map_cons, List.cons_eq_cons] at h
      have hab : a = b := by
        have ha10 := ha a (List.mem_cons_self a as)
        have hb10 := hb b (List.mem_cons_self b bs)
        have hta : (digitChar a).toNat = 48 + a := by
          interval_cases a <;> rfl
        have htb : (digitChar b).toNat = 48 + b := by
          interval_cases b <;> rfl
        have := congrArg Char.toNat h.1
        rw [hta, htb] at this
        omega
      rw [hab, ih bs (fun x hx => ha x (List.mem_cons_of_mem a hx))
        (fun x hx => hb x (List.mem_cons_of_mem b hx)) h.2]

theorem natRepr_inj (m n : Nat) (h : natRepr m = natRepr n) : m = n := by
  unfold natRepr at h
  by_cases hm : m = 0 <;> by_cases hn : n = 0
  · rw [hm, hn]
  · exfalso
    rw [if_pos hm, if_neg hn] at h
    have h₂ : ([0] : List Nat).map digitChar = ((Nat.digits 10 n).reverse).map digitChar := by
      rw [← h]; rfl
    have h₃ := map_digitChar_inj [0] ((Nat.digits 10 n).reverse) (by norm_num)
      (fun d hd => Nat.digits_lt_base (by norm_num) (List.mem_reverse.mp hd)) h₂
    have h₄ : Nat.digits 10 n = [0] := by
      have := congrArg List.reverse h₃
      simpa using this.symm
    have := Nat.ofDigits_digits 10 n
    rw [h₄] at this
    simp [Nat.ofDigits] at this
    exact hn this.symm
  · exfalso
    rw [if_neg hm, if_pos hn] at h
    have h₂ : ((Nat.digits 10 m).reverse).map digitChar = ([0] : List Nat).map digitChar := by
      rw [h]; rfl
    have h₃ := map_digitChar_inj ((Nat.digits 10 m).reverse) [0]
      (fun d hd => Nat.digits_lt_base (by norm_num) (List.mem_reverse.mp hd))
      (by norm_num) h₂
    have h₄ : Nat.digits 10 m = [0] := by
      have := congrArg List.reverse h₃
      simpa using this
    have := Nat.ofDigits_digits 10 m
    rw [h₄] at this
    simp [Nat.ofDigits] at this
    exact hm this.symm
  · rw [if_neg hm, if_neg hn] at h
    have h₃ := map_digitChar_inj ((Nat.digits 10 m).reverse) ((Nat.digits 10 n).reverse)
      (fun d hd => Nat.digits_lt_base (by norm_num) (List.mem_reverse.mp hd))
      (fun d hd => Nat.digits_lt_base (by norm_num) (List.mem_reverse.mp hd)) h
    have h₄ : Nat.digits 10 m = Nat.digits 10 n := by
      have := congrArg List.reverse h₃
      simpa using this
    have hm₂ := Nat.ofDigits_digits 10 m
    rw [h₄, Nat.ofDigits_digits 10 n] at hm₂
    exact hm₂.symm

theorem digitRun : ∀ (xs ys s t : List Char), (∀ c ∈ xs, isDigitChar c = true) →
    (∀ c ∈ ys, isDigitChar c = true) → headNotDigit s → headNotDigit t →
    xs ++ s = ys ++ t → xs = ys ∧ s = t := by
  intro xs
  induction xs with
  | nil =>
    intro ys s t _ hys hs _ h
    cases ys with
    | nil => exact ⟨rfl, h⟩
    | cons d ds =>
      exfalso
      simp only [List.nil_append, List.cons_append] at h
      rw [h] at hs
      simp [headNotDigit, hys d (List.mem_cons_self d ds)] at hs
  | cons c cs ih =>
    intro ys s t hxs hys hs ht h
    cases ys with
    | nil =>
      exfalso
      simp only [List.nil_append, List.cons_append] at h
      rw [← h] at ht
      simp [headNotDigit, hxs c (List.mem_cons_self c cs)] at ht
    | cons d ds =>
      simp only [List.cons_append, List.cons_eq_cons] at h
      obtain ⟨hcd, hrest⟩ := h
      obtain ⟨h₁, h₂⟩ := ih ds s t (fun x hx => hxs x (List.mem_cons_of_mem c hx))
        (fun x hx => hys x (List.mem_cons_of_mem d hx)) hs ht hrest
      exact ⟨by rw [hcd, h₁], h₂⟩

theorem intRepr_prefix (m n : Int) (s t : List Char) (hs : headNotDigit s)
    (ht : headNotDigit t) (h : intRepr m ++ s = intRepr n ++ t) :
    m = n ∧ s = t := by
  unfold intRepr at h
  by_cases hm : m < 0 <;> by_cases hn : n < 0
  · rw [if_pos hm, if_pos hn] at h
    simp only [List.cons_append, List.cons_eq_cons] at h
    obtain ⟨h₁, h₂⟩ := digitRun _ _ s t (natRepr_digits _) (natRepr_digits _) hs ht h.2
    have := natRepr_inj _ _ h₁
    exact ⟨by omega, h₂⟩
  · exfalso
    rw [if_pos hm, if_neg hn] at h
    obtain ⟨c, cs, hc⟩ := List.exists_cons_of_ne_nil (natRepr_ne_nil n.toNat)
    rw [hc] at h
    simp only [List.cons_append, List.cons_eq_cons] at h
    have hdig := natRepr_digits n.toNat c (hc ▸ List.mem_cons_self c cs)
    rw [← h.1] at hdig
    simp [isDigitChar] at hdig
  · exfalso
    rw [if_neg hm, if_pos hn] at h
    obtain ⟨c, cs, hc⟩ := List.exists_cons_of_ne_nil (natRepr_ne_nil m.toNat)
    rw [hc] at h
    simp only [List.cons_append, List.cons_eq_cons] at h
    have hdig := natRepr_digits m.toNat c (hc ▸ List.mem_cons_self c cs)
    rw [h.1] at hdig
    simp [isDigitChar] at hdig
  · rw [if_neg hm, if_neg hn] at h
    obtain ⟨h₁, h₂⟩ := digitRun _ _ s t (natRepr_digits _) (natRepr_digits _) hs ht h
    have := natRepr_inj _ _ h₁
    exact ⟨by omega, h₂⟩

/-! ## C1 — serialization injectivity: leading characters -/

theorem charKind_digit (c : Char) (h : isDigitChar c = true) : charKind c = 2 := by
  unfold charKind
  rw [if_neg, if_neg, if_pos (Or.inr h)]
  · rintro (rfl | rfl) <;> exact absurd h (by decide)
  · rintro rfl
    exact absurd h (by decide)

theorem dumpsJ_head (v : Json) :
    ∃ c cs, dumpsJ true v = c :: cs ∧ charKind c = kindOf v := by
  cases v with
  | null => exact ⟨'n', ['u', 'l', 'l'], by simp [dumpsJ], by decide⟩
  | bool b =>
    cases b with
    | true => exact ⟨'t', ['r', 'u', 'e'], by simp [dumpsJ], by decide⟩
    | false => exact ⟨'f', ['a', 'l', 's', 'e'], by simp [dumpsJ], by decide⟩
  | num n =>
    have hd : dumpsJ true (.num n) = intRepr n := by simp [dumpsJ]
    rw [hd]
    unfold intRepr
    split
    · exact ⟨'-', natRepr n.natAbs, rfl, by rfl⟩
    · obtain ⟨c, cs, hc⟩ := List.exists_cons_of_ne_nil (natRepr_ne_nil _)
      refine ⟨c, cs, hc, ?_⟩
      have hdig : isDigitChar c = true :=
        natRepr_digits _ c (hc ▸ List.mem_cons_self c cs)
      rw [charKind_digit c hdig]
      rfl
  | str s =>
    exact ⟨'"', escapeStr s.data ++ ['"'], by simp [dumpsJ, dumpStr], by rfl⟩
  | arr xs =>
    exact ⟨'[', dumpsArr true xs ++ [']'], by simp [dumpsJ], by rfl⟩
  | obj kvs =>
    exact ⟨'{', joinObj (sortPairs (dumpsPairs true kvs)) ++ ['}'],
      by simp [dumpsJ], by rfl⟩

/-! ## C1 — canonical objects print their pairs unsorted-as-given -/

theorem strLeb_of_strLtb (a b : String) (h : strLtb a b = true) :
    strLeb a b = true := by
  simp only [strLeb, strLtb, Bool.not_eq_true'] at *
  exact listLtb_asymm _ _ h

theorem strLtb_trans (a b c : String) (hab : strLtb a b = true)
    (hbc : strLtb b c = true) : strLtb a c = true :=
  listLtb_trans _ _ _ hab hbc

theorem strictKeys_pairwise (kvs : List (String × Json))
    (h : strictKeys kvs = true) :
    kvs.Pairwise (fun a b => strLtb a.1 b.1 = true) := by
  induction kvs with
  | nil => exact List.Pairwise.nil
  | cons kv rest ih =>
    cases rest with
    | nil => simp
    | cons kv₂ rest₂ =>
      obtain ⟨k, v⟩ := kv
      obtain ⟨k₂, v₂⟩ := kv₂
      rw [strictKeys, Bool.and_eq_true] at h
      have hpair := ih h.2
      rcases List.pairwise_cons.mp hpair with ⟨hk₂, hrest₂⟩
      refine List.Pairwise.cons ?_ hpair
      intro x hx
      rcases List.mem_cons.mp hx with rfl | hx
      · exact h.1
      · exact strLtb_trans _ _ _ h.1 (hk₂ x hx)

theorem canonical_obj_sortPairs (kvs : List (String × Json))
    (h : strictKeys kvs = true) :
    sortPairs (dumpsPairs true kvs) = dumpsPairs true kvs := by
  apply sortPairs_eq_self
  rw [dumpsPairs_eq_map, List.pairwise_map]
  exact (strictKeys_pairwise kvs h).imp (fun hab => strLeb_of_strLtb _ _ hab)

theorem dumpsArr_head (y : Json) (ys : List Json) :
    ∃ c cs, dumpsArr true (y :: ys) = c :: cs ∧ charKind c = kindOf y := by
  obtain ⟨c, cs, hc, hk⟩ := dumpsJ_head y
  cases ys with
  | nil => exact ⟨c, cs, by simp [dumpsArr, hc], hk⟩
  | cons z zs =>
    refine ⟨c, cs ++ ',' :: ' ' :: dumpsArr true (z :: zs), ?_, hk⟩
    have : dumpsArr true (y :: z :: zs) =
        dumpsJ true y ++ ',' :: ' ' :: dumpsArr true (z :: zs) := by
      simp [dumpsArr]
    rw [this, hc]
    rfl

theorem joinObj_pairs_head (k : String) (v : Json) (rest : List (String × Json)) :
    ∃ cs, joinObj (dumpsPairs true ((k, v) :: rest)) = '"' :: cs := by
  cases rest with
  | nil =>
    refine ⟨escapeStr k.data ++ '"' :: ':' :: ' ' :: dumpsJ true v, ?_⟩
    simp [dumpsPairs, joinObj, dumpStr]
  | cons kv₂ rest₂ =>
    refine ⟨escapeStr k.data ++ '"' :: ':' :: ' ' :: (dumpsJ true v ++
      ',' :: ' ' :: joinObj (dumpsPairs true (kv₂ :: rest₂))), ?_⟩
    simp [dumpsPairs, joinObj, dumpStr]

/-! ## C1 — the printed form of a canonical value determines it -/

theorem dumps_prefix_inj : ∀ N : Nat,
    (∀ v : Json, sizeJ v ≤ N → ∀ (w : Json) (s t : List Char),
      canonicalB v = true → canonicalB w = true → headNotDigit s → headNotDigit t →
      dumpsJ true v ++ s = dumpsJ true w ++ t → v = w ∧ s = t) ∧
    (∀ xs : List Json, sizeArr xs ≤ N → ∀ (ys : List Json) (s t : List Char),
      canonicalArr xs = true → canonicalArr ys = true →
      dumpsArr true xs ++ ']' :: s = dumpsArr true ys ++ ']' :: t →
      xs = ys ∧ s = t) ∧
    (∀ kvs : List (String × Json), sizePairs kvs ≤ N →
      ∀ (kvs' : List (String × Json)) (s t : List Char),
      canonicalPairs kvs = true → canonicalPairs kvs' = true →
      joinObj (dumpsPairs true kvs) ++ '}' :: s =
        joinObj (dumpsPairs true kvs') ++ '}' :: t → kvs = kvs' ∧ s = t) := by
  intro N
  induction N using Nat.strong_induction_on with
  | _ N ih =>
  refine ⟨?_, ?_, ?_⟩
  · intro v hsize w s t hcv hcw hs ht heq
    have hkind : kindOf v = kindOf w := by
      obtain ⟨c, cs, hvc, hkc⟩ := dumpsJ_head v
      obtain ⟨d, ds, hwd, hkd⟩ := dumpsJ_head w
      have hcd : c = d := by
        rw [hvc, hwd] at heq
        simp only [List.cons_append, List.cons_eq_cons] at heq
        exact heq.1
      rw [← hkc, ← hkd, hcd]
    cases v with
    | null =>
      cases w with
      | null =>
        refine ⟨rfl, ?_⟩
        have h₄ : dumpsJ true Json.null = ['n', 'u', 'l', 'l'] := by simp [dumpsJ]
        rw [h₄] at heq
        simpa using heq
      | bool b => exact absurd hkind (by simp [kindOf])
      | num n => exact absurd hkind (by simp [kindOf])
      | str a => exact absurd hkind (by simp [kindOf])
      | arr xs => exact absurd hkind (by simp [kindOf])
      | obj kvs => exact absurd hkind (by simp [kindOf])
    | bool b =>
      cases w with
      | null => exact absurd hkind (by simp [kindOf])
      | bool b₂ =>
        cases b <;> cases b₂
        · refine ⟨rfl, ?_⟩
          have h₄ : dumpsJ true (Json.bool false) = ['f', 'a', 'l', 's', 'e'] := by
            simp [dumpsJ]
          rw [h₄] at heq
          simpa using heq
        · exfalso
          have h₄ : dumpsJ true (Json.bool false) = ['f', 'a', 'l', 's', 'e'] := by
            simp [dumpsJ]
          have h₅ : dumpsJ true (Json.bool true) = ['t', 'r', 'u', 'e'] := by
            simp [dumpsJ]
          rw [h₄, h₅] at heq
          simp at heq
        · exfalso
          have h₄ : dumpsJ true (Json.bool false) = ['f', 'a', 'l', 's', 'e'] := by
            simp [dumpsJ]
          have h₅ : dumpsJ true (Json.bool true) = ['t', 'r', 'u', 'e'] := by
            simp [dumpsJ]
          rw [h₄, h₅] at heq
          simp at heq
        · refine ⟨rfl, ?_⟩
          have h₅ : dumpsJ true (Json.bool true) = ['t', 'r', 'u', 'e'] := by
            simp [dumpsJ]
          rw [h₅] at heq
          simpa using heq
      | num n => exact absurd hkind (by simp [kindOf])
      | str a => exact absurd hkind (by simp [kindOf])
      | arr xs => exact absurd hkind (by simp [kindOf])
      | obj kvs => exact absurd hkind (by simp [kindOf])
    | num m =>
      cases w with
      | null => exact absurd hkind (by simp [kindOf])
      | bool b => exact absurd hkind (by simp [kindOf])
      | num n =>
        have h₄ : dumpsJ true (Json.num m) = intRepr m := by simp [dumpsJ]
        have h₅ : dumpsJ true (Json.num n) = intRepr n := by simp [dumpsJ]
        rw [h₄, h₅] at heq
        obtain ⟨h₁, h₂⟩ := intRepr_prefix m n s t hs ht heq
        exact ⟨by rw [h₁], h₂⟩
      | str a => exact absurd hkind (by simp [kindOf])
      | arr xs => exact absurd hkind (by simp [kindOf])
      | obj kvs => exact absurd hkind (by simp [kindOf])
    | str a =>
      cases w with
      | null => exact absurd hkind (by simp [kindOf])
      | bool b => exact absurd hkind (by simp [kindOf])
      | num n => exact absurd hkind (by simp [kindOf])
      | str b =>
        have h₄ : dumpsJ true (Json.str a) = dumpStr a := by simp [dumpsJ]
        have h₅ : dumpsJ true (Json.str b) = dumpStr b := by simp [dumpsJ]
        rw [h₄, h₅] at heq
        obtain ⟨h₁, h₂⟩ := dumpStr_prefix a b s t heq
        exact ⟨by rw [h₁], h₂⟩
      | arr xs => exact absurd hkind (by simp [kindOf])
      | obj kvs => exact absurd hkind (by simp [kindOf])
    | arr xs =>
      cases w with
      | null => exact absurd hkind (by simp [kindOf])
      | bool b => exact absurd hkind (by simp [kindOf])
      | num n => exact absurd hkind (by simp [kindOf])
      | str a => exact absurd hkind (by simp [kindOf])
      | arr ys =>
        have hx : canonicalArr xs = true := by simpa [canonicalB] using hcv
        have hy : canonicalArr ys = true := by simpa [canonicalB] using hcw
        have h₄ : ∀ zs : List Json, dumpsJ true (Json.arr zs) =
            '[' :: dumpsArr true zs ++ [']'] := by
          intro zs
          simp [dumpsJ]
        rw [h₄, h₄] at heq
        simp only [List.cons_append, List.append_assoc, List.singleton_append,
          List.cons_eq_cons, true_and] at heq
        have hlt : sizeArr xs < N := by
          have h₆ : sizeJ (Json.arr xs) = 1 + sizeArr xs := by simp [sizeJ]
          omega
        obtain ⟨hxy, hst⟩ := (ih (sizeArr xs) hlt).2.1 xs le_rfl ys s t hx hy heq
        exact ⟨by rw [hxy], hst⟩
      | obj kvs => exact absurd hkind (by simp [kindOf])
    | obj kvs =>
      cases w with
      | null => exact absurd hkind (by simp [kindOf])
      | bool b => exact absurd hkind (by simp [kindOf])
      | num n => exact absurd hkind (by simp [kindOf])
      | str a => exact absurd hkind (by simp [kindOf])
      | arr ys => exact absurd hkind (by simp [kindOf])
      | obj kvs₂ =>
        have hx : strictKeys kvs = true ∧ canonicalPairs kvs = true := by
          simpa [canonicalB, Bool.and_eq_true] using hcv
        have hy : strictKeys kvs₂ = true ∧ canonicalPairs kvs₂ = true := by
          simpa [canonicalB, Bool.and_eq_true] using hcw
        have h₄ : ∀ zs : List (String × Json), strictKeys zs = true →
            dumpsJ true (Json.obj zs) =
              '{' :: joinObj (dumpsPairs true zs) ++ ['}'] := by
          intro zs hz
          simp [dumpsJ, canonical_obj_sortPairs zs hz]
        rw [h₄ kvs hx.1, h₄ kvs₂ hy.1] at heq
        simp only [List.cons_append, List.append_assoc, List.singleton_append,
          List.cons_eq_cons, true_and] at heq
        have hlt : sizePairs kvs < N := by
          have h₆ : sizeJ (Json.obj kvs) = 1 + sizePairs kvs := by simp [sizeJ]
          omega
        obtain ⟨hxy, hst⟩ := (ih (sizePairs kvs) hlt).2.2 kvs le_rfl kvs₂ s t hx.2
          hy.2 heq
        exact ⟨by rw [hxy], hst⟩
  · intro xs hsize ys s t hcx hcy heq
    cases xs with
    | nil =>
      cases ys with
      | nil =>
        refine ⟨rfl, ?_⟩
        simpa [dumpsArr] using heq
      | cons y ys₂ =>
        exfalso
        obtain ⟨c, cs, hc, hk⟩ := dumpsArr_head y ys₂
        rw [hc] at heq
        have h₁ : (']' : Char) = c := by
          have h₂ : dumpsArr true ([] : List Json) = [] := by simp [dumpsArr]
          rw [h₂] at heq
          simp only [List.nil_append, List.cons_append, List.cons_eq_cons] at heq
          exact heq.1
        rw [← h₁] at hk
        have h₆ : charKind ']' = 6 := by decide
        rw [h₆] at hk
        cases y <;> simp [kindOf] at hk
    | cons x xs₂ =>
      cases ys with
      | nil =>
        exfalso
        obtain ⟨c, cs, hc, hk⟩ := dumpsArr_head x xs₂
        rw [hc] at heq
        have h₁ : (']' : Char) = c := by
          have h₂ : dumpsArr true ([] : List Json) = [] := by simp [dumpsArr]
          rw [h₂] at heq
          simp only [List.nil_append, List.cons_append, List.cons_eq_cons] at heq
          exact heq.1.symm
        rw [← h₁] at hk
        have h₆ : charKind ']' = 6 := by decide
        rw [h₆] at hk
        cases x <;> simp [kindOf] at hk
      | cons y ys₂ =>
        have hx : canonicalB x = true ∧ canonicalArr xs₂ = true := by
          simpa [canonicalArr, Bool.and_eq_true] using hcx
        have hy : canonicalB y = true ∧ canonicalArr ys₂ = true := by
          simpa [canonicalArr, Bool.and_eq_true] using hcy
        have hsz : 1 + sizeJ x + sizeArr xs₂ ≤ N := by
          have h₆ : sizeArr (x :: xs₂) = 1 + sizeJ x + sizeArr xs₂ := by
            simp [sizeArr]
          omega
        cases xs₂ with
        | nil =>
          cases ys₂ with
          | nil =>
            have h₄ : ∀ z : Json, dumpsArr true [z] = dumpsJ true z := by
              intro z
              simp [dumpsArr]
            rw [h₄, h₄] at heq
            obtain ⟨hxy, hst⟩ := (ih (sizeJ x) (by omega)).1 x le_rfl y
              (']' :: s) (']' :: t) hx.1 hy.1 (by simp only [headNotDigit]; decide)
              (by simp only [headNotDigit]; decide) heq
            exact ⟨by rw [hxy], by simpa using hst⟩
          | cons z zs =>
            exfalso
            have h₄ : dumpsArr true [x] = dumpsJ true x := by simp [dumpsArr]
            have h₅ : dumpsArr true (y :: z :: zs) =
                dumpsJ true y ++ ',' :: ' ' :: dumpsArr true (z :: zs) := by
              simp [dumpsArr]
            rw [h₄, h₅] at heq
            simp only [List.append_assoc, List.cons_append] at heq
            obtain ⟨-, hst⟩ := (ih (sizeJ x) (by omega)).1 x le_rfl y
              (']' :: s) (',' :: ' ' :: (dumpsArr true (z :: zs) ++ ']' :: t))
              hx.1 hy.1 (by simp only [headNotDigit]; decide) (by simp only [headNotDigit]; decide) heq
            simp at hst
        | cons x₂ xs₃ =>
          cases ys₂ with
          | nil =>
            exfalso
            have h₄ : dumpsArr true [y] = dumpsJ true y := by simp [dumpsArr]
            have h₅ : dumpsArr true (x :: x₂ :: xs₃) =
                dumpsJ true x ++ ',' :: ' ' :: dumpsArr true (x₂ :: xs₃) := by
              simp [dumpsArr]
            rw [h₄, h₅] at heq
            simp only [List.append_assoc, List.cons_append] at heq
            obtain ⟨-, hst⟩ := (ih (sizeJ x) (by omega)).1 x le_rfl y
              (',' :: ' ' :: (dumpsArr true (x₂ :: xs₃) ++ ']' :: s)) (']' :: t)
              hx.1 hy.1 (by simp only [headNotDigit]; decide) (by simp only [headNotDigit]; decide) heq
            simp at hst
          | cons y₂ ys₃ =>
            have h₅ : ∀ (z z₂ : Json) (zs : List Json),
                dumpsArr true (z :: z₂ :: zs) =
                dumpsJ true z ++ ',' :: ' ' :: dumpsArr true (z₂ :: zs) := by
              intro z z₂ zs
              simp [dumpsArr]
            rw [h₅, h₅] at heq
            simp only [List.append_assoc, List.cons_append] at heq
            obtain ⟨hxy, hst⟩ := (ih (sizeJ x) (by omega)).1 x le_rfl y
              (',' :: ' ' :: (dumpsArr true (x₂ :: xs₃) ++ ']' :: s))
              (',' :: ' ' :: (dumpsArr true (y₂ :: ys₃) ++ ']' :: t))
              hx.1 hy.1 (by simp only [headNotDigit]; decide) (by simp only [headNotDigit]; decide) heq
            simp only [List.cons_eq_cons, true_and] at hst
            obtain ⟨hxy₂, hst₂⟩ := (ih (sizeArr (x₂ :: xs₃)) (by
              have h₆ : sizeArr (x :: x₂ :: xs₃) =
                  1 + sizeJ x + sizeArr (x₂ :: xs₃) := by simp [sizeArr]
              omega)).2.1 (x₂ :: xs₃) le_rfl (y₂ :: ys₃) s t hx.2 hy.2 hst
            exact ⟨by rw [hxy, hxy₂], hst₂⟩
  · intro kvs hsize kvs₂ s t hck hck₂ heq
    cases kvs with
    | nil =>
      cases kvs₂ with
      | nil =>
        refine ⟨rfl, ?_⟩
        simpa [dumpsPairs, joinObj] using heq
      | cons kv rest =>
        exfalso
        obtain ⟨k, v⟩ := kv
        obtain ⟨cs, hc⟩ := joinObj_pairs_head k v rest
        rw [hc] at heq
        have h₂ : dumpsPairs true ([] : List (String × Json)) = [] := by
          simp [dumpsPairs]
        rw [h₂] at heq
        simp only [joinObj, List.nil_append, List.cons_append,
          List.cons_eq_cons] at heq
        exact absurd heq.1 (by decide)
    | cons kv rest =>
      obtain ⟨k, v⟩ := kv
      cases kvs₂ with
      | nil =>
        exfalso
        obtain ⟨cs, hc⟩ := joinObj_pairs_head k v rest
        rw [hc] at heq
        have h₂ : dumpsPairs true ([] : List (String × Json)) = [] := by
          simp [dumpsPairs]
        rw [h₂] at heq
        simp only [joinObj, List.nil_append, List.cons_append,
          List.cons_eq_cons] at heq
        exact absurd heq.1 (by decide)
      | cons kv₂ rest₂ =>
        obtain ⟨k₂, v₂⟩ := kv₂
        have hv : canonicalB v = true ∧ canonicalPairs rest = true := by
          simpa [canonicalPairs, Bool.and_eq_true] using hck
        have hv₂ : canonicalB v₂ = true ∧ canonicalPairs rest₂ = true := by
          simpa [canonicalPairs, Bool.and_eq_true] using hck₂
        have hsz : 1 + sizeJ v + sizePairs rest ≤ N := by
          have h₆ : sizePairs ((k, v) :: rest) = 1 + sizeJ v + sizePairs rest := by
            simp [sizePairs]
          omega
        cases rest with
        | nil =>
          cases rest₂ with
          | nil =>
            have h₄ : ∀ (a : String) (b : Json),
                joinObj (dumpsPairs true [(a, b)]) =
                dumpStr a ++ ':' :: ' ' :: dumpsJ true b := by
              intro a b
              simp [dumpsPairs, joinObj]
            rw [h₄, h₄] at heq
            simp only [List.append_assoc, List.cons_append] at heq
            obtain ⟨hk₁, hrest⟩ := dumpStr_prefix k k₂ _ _ heq
            simp only [List.cons_eq_cons, true_and] at hrest
            obtain ⟨hveq, hst⟩ := (ih (sizeJ v) (by omega)).1 v le_rfl v₂
              ('}' :: s) ('}' :: t) hv.1 hv₂.1 (by simp only [headNotDigit]; decide)
              (by simp only [headNotDigit]; decide) hrest
            refine ⟨?_, by simpa using hst⟩
            rw [hk₁, hveq]
          | cons kv₃ rest₃ =>
            exfalso
            have h₄ : ∀ (a : String) (b : Json),
                joinObj (dumpsPairs true [(a, b)]) =
                dumpStr a ++ ':' :: ' ' :: dumpsJ true b := by
              intro a b
              simp [dumpsPairs, joinObj]
            have h₅ : ∀ (a : String) (b : Json) (kv₄ : String × Json)
                (rest₄ : List (String × Json)),
                joinObj (dumpsPairs true ((a, b) :: kv₄ :: rest₄)) =
                dumpStr a ++ ':' :: ' ' :: (dumpsJ true b ++
                  ',' :: ' ' :: joinObj (dumpsPairs true (kv₄ :: rest₄))) := by
              intro a b kv₄ rest₄
              simp [dumpsPairs, joinObj]
            rw [h₄, h₅] at heq
            simp only [List.append_assoc, List.cons_append] at heq
            obtain ⟨-, hrest⟩ := dumpStr_prefix k k₂ _ _ heq
            simp only [List.cons_eq_cons, true_and, List.append_assoc] at hrest
            obtain ⟨-, hst⟩ := (ih (sizeJ v) (by omega)).1 v le_rfl v₂
              ('}' :: s) (',' :: ' ' ::
                (joinObj (dumpsPairs true (kv₃ :: rest₃)) ++ '}' :: t))
              hv.1 hv₂.1 (by simp only [headNotDigit]; decide) (by simp only [headNotDigit]; decide) hrest
            simp at hst
        | cons kv₃ rest₃ =>
          cases rest₂ with
          | nil =>
            exfalso
            have h₄ : ∀ (a : String) (b : Json),
                joinObj (dumpsPairs true [(a, b)]) =
                dumpStr a ++ ':' :: ' ' :: dumpsJ true b := by
              intro a b
              simp [dumpsPairs, joinObj]
            have h₅ : ∀ (a : String) (b : Json) (kv₄ : String × Json)
                (rest₄ : List (String × Json)),
                joinObj (dumpsPairs true ((a, b) :: kv₄ :: rest₄)) =
                dumpStr a ++ ':' :: ' ' :: (dumpsJ true b ++
                  ',' :: ' ' :: joinObj (dumpsPairs true (kv₄ :: rest₄))) := by
              intro a b kv₄ rest₄
              simp [dumpsPairs, joinObj]
            rw [h₄, h₅] at heq
            simp only [List.append_assoc, List.cons_append] at heq
            obtain ⟨-, hrest⟩ := dumpStr_prefix k k₂ _ _ heq
            simp only [List.cons_eq_cons, true_and, List.append_assoc] at hrest
            obtain ⟨-, hst⟩ := (ih (sizeJ v) (by omega)).1 v le_rfl v₂
              (',' :: ' ' ::
                (joinObj (dumpsPairs true (kv₃ :: rest₃)) ++ '}' :: s))
              ('}' :: t) hv.1 hv₂.1 (by simp only [headNotDigit]; decide)
              (by simp only [headNotDigit]; decide) hrest
            simp at hst
          | cons kv₄ rest₄ =>
            have h₅ : ∀ (a : String) (b : Json) (kv₅ : String × Json)
                (rest₅ : List (String × Json)),
                joinObj (dumpsPairs true ((a, b) :: kv₅ :: rest₅)) =
                dumpStr a ++ ':' :: ' ' :: (dumpsJ true b ++
                  ',' :: ' ' :: joinObj (dumpsPairs true (kv₅ :: rest₅))) := by
              intro a b kv₅ rest₅
              simp [dumpsPairs, joinObj]
            rw [h₅, h₅] at heq
            simp only [List.append_assoc, List.cons_append] at heq
            obtain ⟨hk₁, hrest⟩ := dumpStr_prefix k k₂ _ _ heq
            simp only [List.cons_eq_cons, true_and, List.append_assoc] at hrest
            obtain ⟨hveq, hst⟩ := (ih (sizeJ v) (by omega)).1 v le_rfl v₂
              (',' :: ' ' ::
                (joinObj (dumpsPairs true (kv₃ :: rest₃)) ++ '}' :: s))
              (',' :: ' ' ::
                (joinObj (dumpsPairs true (kv₄ :: rest₄)) ++ '}' :: t))
              hv.1 hv₂.1 (by simp only [headNotDigit]; decide) (by simp only [headNotDigit]; decide) hrest
            simp only [List.cons_eq_cons, true_and] at hst
            obtain ⟨hreq, hst₂⟩ := (ih (sizePairs (kv₃ :: rest₃)) (by
              have h₆ : sizePairs ((k, v) :: kv₃ :: rest₃) =
                  1 + sizeJ v + sizePairs (kv₃ :: rest₃) := by simp [sizePairs]
              omega)).2.2 (kv₃ :: rest₃) le_rfl (kv₄ :: rest₄) s t hv.2 hv₂.2 hst
            refine ⟨?_, hst₂⟩
            rw [hk₁, hveq, hreq]

/-! ## C1 — chain-level results -/

theorem dumps_true_inj (v w : Json) (hcv : canonicalB v = true)
    (hcw : canonicalB w = true) (h : dumps true v = dumps true w) : v = w := by
  have hl : dumpsJ true v = dumpsJ true w := by
    have := congrArg String.data h
    simpa [dumps] using this
  have h₂ : dumpsJ true v ++ ([] : List Char) = dumpsJ true w ++ [] := by
    simpa using hl
  exact ((dumps_prefix_inj (sizeJ v)).1 v le_rfl w [] [] hcv hcw trivial
    trivial h₂).1

theorem entryJson_canonical (ts ev : String) (md : Json) (pr : String)
    (h : canonicalB md = true) : canonicalB (entryJson ts ev md pr) = true := by
  simp only [entryJson, canonicalB, canonicalPairs, strictKeys,
    Bool.and_eq_true, h]
  refine ⟨⟨?_, ?_, ?_⟩, ?_⟩ <;> decide

theorem entryJson_inj (ts ev : String) (md : Json) (pr ts₂ ev₂ : String)
    (md₂ : Json) (pr₂ : String)
    (h : entryJson ts ev md pr = entryJson ts₂ ev₂ md₂ pr₂) :
    ts = ts₂ ∧ ev = ev₂ ∧ md = md₂ ∧ pr = pr₂ := by
  simp only [entryJson, Json.obj.injEq, List.cons.injEq, Prod.mk.injEq,
    Json.str.injEq, and_true, true_and] at h
  tauto

theorem verifyFrom_append (hash : String → String) (l₁ : List ChainEntry) :
    ∀ (r : String) (l₂ : List ChainEntry),
    verifyFrom hash r (l₁ ++ l₂) =
      (verifyFrom hash r l₁).bind (fun r₂ => verifyFrom hash r₂ l₂) := by
  induction l₁ with
  | nil => intro r l₂; simp [verifyFrom]
  | cons e rest ih =>
    intro r l₂
    simp only [List.cons_append, verifyFrom]
    split
    · exact ih _ _
    · simp

theorem appendAll_verifyFrom (hash : String → String)
    (items : List (String × String × Json)) :
    ∀ st : MerkleChainLogger,
    verifyFrom hash genesisRoot st.chain = some st.current_root →
    verifyFrom hash genesisRoot (st.appendAll hash items).chain =
      some (st.appendAll hash items).current_root := by
  induction items with
  | nil => exact fun st h => h
  | cons item rest ih =>
    intro st h
    have hstep : verifyFrom hash genesisRoot
        (st.append hash item.1 item.2.1 item.2.2).chain =
        some (st.append hash item.1 item.2.1 item.2.2).current_root := by
      simp only [MerkleChainLogger.append]
      rw [verifyFrom_append, h]
      simp [verifyFrom, ChainEntry.serialize]
    exact ih _ hstep

theorem verifyFrom_take (hash : String → String) (chain : List ChainEntry)
    (r : String) (h : verifyFrom hash genesisRoot chain = some r)
    (i : Nat) (hi : i < chain.length) :
    ∃ ri, verifyFrom hash genesisRoot (chain.take i) = some ri ∧
      compute_hash hash ((chain.get ⟨i, hi⟩).serialize) ri =
        (chain.get ⟨i, hi⟩).merkle_root := by
  have hsplit : chain = chain.take i ++ chain.get ⟨i, hi⟩ :: chain.drop (i + 1) := by
    conv_lhs => rw [← List.take_append_drop i chain]
    rw [List.drop_eq_getElem_cons hi]
    rfl
  rw [hsplit, verifyFrom_append] at h
  obtain ⟨ri, h₁, h₂⟩ := Option.bind_eq_some.mp h
  refine ⟨ri, h₁, ?_⟩
  · simp only [verifyFrom] at h₂
    by_contra hcon
    rw [if_neg hcon] at h₂
    exact Option.noConfusion h₂

theorem verifyFrom_set_tamper (hash : String → String) (chain : List ChainEntry)
    (r : String) (h : verifyFrom hash genesisRoot chain = some r)
    (i : Nat) (hi : i < chain.length) (e' : ChainEntry)
    (hinj : Function.Injective hash)
    (hm : e'.merkle_root = (chain.get ⟨i, hi⟩).merkle_root)
    (hser : e'.serialize ≠ (chain.get ⟨i, hi⟩).serialize) :
    verifyFrom hash genesisRoot (chain.set i e') = none := by
  obtain ⟨ri, h₁, h₂⟩ := verifyFrom_take hash chain r h i hi
  rw [List.set_eq_take_cons_drop e' hi, verifyFrom_append, h₁]
  have hcheck : compute_hash hash e'.serialize ri ≠ e'.merkle_root := by
    rw [hm, ← h₂]
    intro hcon
    apply hser
    have hdata := congrArg String.data (hinj hcon)
    simp only [String.data_append] at hdata
    have := List.append_cancel_right hdata
    exact String.ext (List.append_cancel_right this)
  simp only [Option.some_bind, verifyFrom, if_neg hcheck]

theorem appendAll_metadata_canonical (hash : String → String)
    (items : List (String × String × Json)) :
    ∀ st : MerkleChainLogger,
    (∀ e ∈ st.chain, canonicalB e.metadata = true) →
    (∀ item ∈ items, canonicalB item.2.2 = true) →
    ∀ e ∈ (st.appendAll hash items).chain, canonicalB e.metadata = true := by
  induction items with
  | nil => exact fun st hst _ => hst
  | cons item rest ih =>
    intro st hst hitems
    refine ih _ ?_ (fun it hit => hitems it (List.mem_cons_of_mem item hit))
    intro e he
    simp only [MerkleChainLogger.append, List.mem_append,
      List.mem_singleton] at he
    rcases he with he | rfl
    · exact hst e he
    · exact hitems item (List.mem_cons_self item rest)

/-- C1: starting from the genesis root, `verify_integrity` accepts after
every sequence of `append` calls; and if any of the four data fields of
any stored entry is then mutated to a different value (keeping the stored
root), `verify_integrity` rejects — under the standard idealization that
SHA3-256 is collision-free (injective) and with the metadata dicts in
canonical (sorted-key) form, the form every Python dict serializes to
under `sort_keys=True`. -/
theorem chain_append_verify_tamper (hash : String → String)
    (items : List (String × String × Json)) :
    (MerkleChainLogger.init.appendAll hash items).verify_integrity hash = true ∧
    (∀ (i : Nat)
      (hi : i < (MerkleChainLogger.init.appendAll hash items).chain.length)
      (e' : ChainEntry),
      Function.Injective hash →
      (∀ item ∈ items, canonicalB item.2.2 = true) →
      canonicalB e'.metadata = true →
      e'.merkle_root =
        ((MerkleChainLogger.init.appendAll hash items).chain.get ⟨i, hi⟩).merkle_root →
      (e'.timestamp ≠
          ((MerkleChainLogger.init.appendAll hash items).chain.get ⟨i, hi⟩).timestamp ∨
        e'.event ≠
          ((MerkleChainLogger.init.appendAll hash items).chain.get ⟨i, hi⟩).event ∨
        e'.metadata ≠
          ((MerkleChainLogger.init.appendAll hash items).chain.get ⟨i, hi⟩).metadata ∨
        e'.prev_root ≠
          ((MerkleChainLogger.init.appendAll hash items).chain.get ⟨i, hi⟩).prev_root) →
      MerkleChainLogger.verify_integrity hash
        { chain := (MerkleChainLogger.init.appendAll hash items).chain.set i e',
          current_root :=
            (MerkleChainLogger.init.appendAll hash items).current_root } = false) := by
  have hbase : verifyFrom hash genesisRoot MerkleChainLogger.init.chain =
      some MerkleChainLogger.init.current_root := by
    simp [MerkleChainLogger.init, verifyFrom]
  have hfull := appendAll_verifyFrom hash items MerkleChainLogger.init hbase
  constructor
  · simp [MerkleChainLogger.verify_integrity, hfull]
  · intro i hi e' hinj hitems hmd hm hdiff
    have horig : canonicalB ((MerkleChainLogger.init.appendAll hash
        items).chain.get ⟨i, hi⟩).metadata = true := by
      refine appendAll_metadata_canonical hash items MerkleChainLogger.init
        ?_ hitems _ (List.get_mem _ i hi)
      intro e he
      simp [MerkleChainLogger.init] at he
    have hser : e'.serialize ≠
        ((MerkleChainLogger.init.appendAll hash items).chain.get ⟨i, hi⟩).serialize := by
      intro hcon
      have hjson := dumps_true_inj _ _
        (entryJson_canonical _ _ _ _ hmd) (entryJson_canonical _ _ _ _ horig) hcon
      obtain ⟨h₁, h₂, h₃, h₄⟩ := entryJson_inj _ _ _ _ _ _ _ _ hjson
      rcases hdiff with h | h | h | h <;> exact h (by assumption)
    have hnone := verifyFrom_set_tamper hash _ _ hfull i hi e' hinj hm hser
    simp [MerkleChainLogger.verify_integrity, hnone]

/-- C1 witness: three appends from genesis verify; mutating the second
entry's `event` field makes verification fail (with the identity digest,
which is injective, standing in for SHA3-256). -/
theorem chain_append_verify_tamper_witness :
    (MerkleChainLogger.init.appendAll id
      [("T1", "E1", .obj []), ("T2", "E2", .obj []),
       ("T3", "E3", .obj [])]).verify_integrity id = true ∧
    MerkleChainLogger.verify_integrity id
      { chain := (MerkleChainLogger.init.appendAll id
          [("T1", "E1", .obj []), ("T2", "E2", .obj []),
           ("T3", "E3", .obj [])]).chain.set 1
          { (MerkleChainLogger.init.appendAll id
              [("T1", "E1", .obj []), ("T2", "E2", .obj []),
               ("T3", "E3", .obj [])]).chain.get ⟨1, by decide⟩ with
            event := "X" },
        current_root := (MerkleChainLogger.init.appendAll id
          [("T1", "E1", .obj []), ("T2", "E2", .obj []),
           ("T3", "E3", .obj [])]).current_root } = false := by
  refine ⟨(chain_append_verify_tamper id _).1, ?_⟩
  refine (chain_append_verify_tamper id _).2 1 (by decide) _
    (fun a b h => h) ?_ ?_ rfl ?_
  · intro item hit
    simp only [List.mem_cons, List.not_mem_nil, or_false] at hit
    rcases hit with rfl | rfl | rfl <;>
      · show canonicalB (.obj []) = true
        simp [canonicalB, strictKeys, canonicalPairs]
  · show canonicalB (.obj []) = true
    simp [canonicalB, strictKeys, canonicalPairs]
  · refine Or.inr (Or.inl ?_)
    show ("X" : String) ≠ "E2"
    decide

end Captals
